import Mathlib

/-!
Verification of the external-dns G-Core webhook provider.

This file is a shallow embedding, in Lean 4, of the reconciliation and apply
engine of the repository: the pure zone-resolution and content-diff helpers of
`gcoreprovider/gcore.go`, the orchestration structure of
`DnsProvider.ApplyChanges`, and the G-Core DNS SDK client operations
(`AddZoneRRSet`, `DeleteRRSetRecord`, `DeleteRRSet`, `AllZonesWithRecords`)
that the provider drives.

Modelling conventions:
  * Go strings are Lean `String`s; `strings.Trim(s, ".")`, `strings.Split`
    and `strings.Join` are embedded as `trimDots`, `String.splitOn` and
    `joinSep`.
  * Remote HTTP calls are modelled by oracles: a pure call either by an
    explicit `Except` result passed in, or, for whole apply runs, by a
    function from the dispatched call to an optional error.
  * The goroutine fan-out of `ApplyChanges` (two `errgroup`s separated by
    `gr2.Wait()`) is linearised: tasks are listed in dispatch order, the
    `gr2.Wait()` barrier separates the teardown tasks from the update-add
    tasks, and the first failing task (in dispatch order) supplies the
    aggregated error, mirroring errgroup's first-error semantics.
-/

namespace GCore

/-- Go `strings.Trim(s, ".")`: remove all leading and trailing dots. -/
def trimDots (s : String) : String :=
  String.mk (((s.data.dropWhile (· == '.')).reverse.dropWhile (· == '.')).reverse)

/-- Helper for `splitDots`: accumulate the current field until the next dot. -/
def splitDotsAux : List Char → List Char → List String
  | [], acc => [String.mk acc.reverse]
  | c :: cs, acc =>
    if c = '.' then String.mk acc.reverse :: splitDotsAux cs []
    else splitDotsAux cs (c :: acc)

/-- Go `strings.Split(s, ".")`: split on every dot; the empty string yields
one empty field, adjacent dots yield empty fields. -/
def splitDots (s : String) : List String :=
  splitDotsAux s.data []

/-- Go `strings.Join(parts, sep)`. -/
def joinSep (sep : String) : List String → String
  | [] => ""
  | [x] => x
  | x :: y :: rest => x ++ sep ++ joinSep sep (y :: rest)

/-- The suffix-generation loop of `extractAllZones` (gcore.go): for a list of
labels `parts` with at least two elements it returns
`strings.Join(parts[i:], ".")` for `i = 0 .. len(parts)-2`; for fewer than two
labels the Go code returns `nil` before the loop. -/
def suffixJoins : List String → List String
  | [] => []
  | [_] => []
  | x :: y :: rest => joinSep "." (x :: y :: rest) :: suffixJoins (y :: rest)

/-- `extractAllZones` (gcore.go): split the dot-trimmed name on `.` and list
every suffix with at least two labels, longest first. -/
def extractAllZones (dnsName : String) : List String :=
  suffixJoins (splitDots (trimDots dnsName))

/-- The resolver closure returned by `DnsProvider.zoneFromDNSNameGetter`
(gcore.go), parametrised by the domain-filter list it was built from.  The Go
code puts every filter string into a map whose value is the dot-trimmed
filter, then returns the map value of the first generated suffix that is a
key; so a hit on suffix `z` yields `strings.Trim(z, ".")` and a miss yields
the empty string. -/
def zoneFromDNSName (filters : List String) (name : String) : String :=
  match (extractAllZones name).find? (fun possibleZone => filters.contains possibleZone) with
  | some z => trimDots z
  | none => ""

/-- `endpoint.Endpoint` (external-dns), restricted to the fields the provider
reads: `DNSName`, `RecordType`, `Targets`, `RecordTTL`. -/
structure Endpoint where
  DNSName : String
  RecordType : String
  Targets : List String
  RecordTTL : Int
deriving DecidableEq, Repr

/-- `plan.Changes` (external-dns): the four groups of one reconciliation
pass. -/
structure Changes where
  Create : List Endpoint
  Delete : List Endpoint
  UpdateOld : List Endpoint
  UpdateNew : List Endpoint
deriving DecidableEq, Repr

/-- The candidate-matching predicate of `unexistingTargets` (gcore.go): the
loop skips a candidate unless both its record type and its DNS name equal the
existing endpoint's. -/
def matchesEndpoint (existing compare_ : Endpoint) : Bool :=
  compare_.RecordType == existing.RecordType && compare_.DNSName == existing.DNSName

/-- `unexistingTargets` (gcore.go): find the first candidate matching
`existing` by record type and DNS name; with `diffFromExisting = true` return
the targets of `existing` missing from the candidate, otherwise the targets
of the candidate missing from `existing`.  No matching candidate yields
`nil`. -/
def unexistingTargets (existing : Endpoint) (toCompare : List Endpoint)
    (diffFromExisting : Bool) : List String :=
  match toCompare.find? (fun c => matchesEndpoint existing c) with
  | none => []
  | some compare_ =>
    if diffFromExisting then
      existing.Targets.filter (fun fromTar => !(compare_.Targets.contains fromTar))
    else
      compare_.Targets.filter (fun fromTar => !(existing.Targets.contains fromTar))

/-! ### Data transfer objects of the G-Core DNS SDK (dnssdk) -/

/-- `dnssdk.ResourceRecord`, keeping the fields the engine touches.  A content
item (`any` in Go) is modelled by its `fmt.Sprint` rendering, so `Content` is
a list of strings; the `Meta` map is not modelled. -/
structure ResourceRecord where
  Content : List String
  Enabled : Bool
deriving DecidableEq, Repr

/-- `ResourceRecord.ContentToString` (dnssdk): the content items rendered and
joined by single spaces.  (The special quoting of nested `alpn` arrays inside
HTTPS values is outside this model, where items are already strings.) -/
def ResourceRecord.ContentToString (r : ResourceRecord) : String :=
  joinSep " " r.Content

/-- `dnssdk.RRSet`, keeping the fields the engine touches (`Filters` and
`Meta` are not modelled). -/
structure RRSet where
  TTL : Int
  Records : List ResourceRecord
deriving DecidableEq, Repr

/-- `dnssdk.ZoneRecord` (the Go field `Type` is spelled `Type_`). -/
structure ZoneRecord where
  Name : String
  Type_ : String
  TTL : Nat
  ShortAnswers : List String
deriving DecidableEq, Repr

/-- `dnssdk.Zone`. -/
structure Zone where
  Name : String
  Records : List ZoneRecord
deriving DecidableEq, Repr

/-- `dnssdk.APIError`. -/
structure APIError where
  StatusCode : Nat
  Message : String
deriving DecidableEq, Repr

/-- `APIError.Error()` (dnssdk): `fmt.Sprintf("%d: %s", ...)`. -/
def APIError.Error (a : APIError) : String :=
  toString a.StatusCode ++ ": " ++ a.Message

/-! ### SDK client operations, HTTP responses supplied as oracles

A call that the Go client performs over HTTP is modelled by passing its
response in as an `Except APIError` value; the functions below reproduce the
client's control flow around those responses and return `none` for a nil
error and `some msg` for an error with rendered message `msg`. -/

/-- `Client.DeleteRRSet` (dnssdk): DELETE the whole RRSet; a 404 response is
success (DELETE idempotence), any other failure is wrapped as
`delete record request: err`. -/
def DeleteRRSet (delResp : Except APIError Unit) : Option String :=
  match delResp with
  | .ok _ => none
  | .error e => if e.StatusCode = 404 then none else some ("delete record request: " ++ e.Error)

/-- `Client.DeleteRRSetRecord` (dnssdk).  `getResp` is the response of the
initial `c.RRSet` GET (its `request zone -> name:` wrapping is reproduced,
and `errors.As` unwrapping is modelled by carrying the `APIError` directly);
`delResp` is the response of the whole-RRSet DELETE used when no records
remain; `updResp` is the response of the PUT used otherwise. -/
def DeleteRRSetRecord (zone name recordType : String) (getResp : Except APIError RRSet)
    (delResp updResp : Except APIError Unit) (contents : List String) : Option String :=
  match getResp with
  | .error e =>
    if e.StatusCode = 404 then none
    else some ("rrset: request " ++ trimDots zone ++ " -> " ++ trimDots name ++ ": " ++ e.Error)
  | .ok rrSet =>
    if rrSet.Records.isEmpty then none
    else
      let newRecords := rrSet.Records.filter fun record =>
        !record.Content.isEmpty && !(contents.contains record.ContentToString)
      if newRecords.isEmpty then
        match DeleteRRSet delResp with
        | none => none
        | some e => some ("delete rrset: " ++ e)
      else
        match updResp with
        | .ok _ => none
        | .error e => some ("update rrset: " ++ e.Error)

/-- The errgroup fan-out of `Client.AllZonesWithRecords` (dnssdk): the first
(in dispatch order) failing per-zone detail fetch, with the zone name the
goroutine wraps into its error. -/
def zoneInfoFirstFailure (zs : List Zone) (fetchZone : String → Except String Zone) :
    Option (String × String) :=
  zs.findSome? fun z =>
    match fetchZone z.Name with
    | .error e => some (z.Name, e)
    | .ok _ => none

/-- `Client.AllZonesWithRecords` (dnssdk).  The zone listing (`AllZones`, an
HTTP pagination loop) is supplied as `zonesResult`; `fetchZone` models
`c.Zone(ctx, name)` for the per-zone detail fetch.  A listing failure is
wrapped as `all zones:`; any per-zone failure makes the whole call return the
first one wrapped as `zone info: name: err` and no zone list; on full success
every listed zone is replaced by its fetched detail. -/
def AllZonesWithRecords :
    Except String (List Zone) → (String → Except String Zone) → Except String (List Zone)
  | .error e, _ => .error ("all zones: " ++ e)
  | .ok zs, fetchZone =>
    match zoneInfoFirstFailure zs fetchZone with
    | some p => .error ("zone info: " ++ p.1 ++ ": " ++ p.2)
    | none =>
      .ok (zs.map fun z =>
        match fetchZone z.Name with
        | .ok zoneDetail => zoneDetail
        | .error _ => z)

/-- `DnsProvider.GetDomainFilter` (gcore.go): when the zone listing fails the
error is only logged and the zero `endpoint.DomainFilter` — no filters — is
returned; on success both `z.Name` and `"."+z.Name` of every zone enter the
filter list.  (`endpoint.NewDomainFilter` of the external-dns library is
modelled as the identity on the filter list.) -/
def GetDomainFilterFilters (zonesResult : Except String (List Zone)) : List String :=
  match zonesResult with
  | .error _ => []
  | .ok zs => zs.flatMap fun z => [z.Name, "." ++ z.Name]

/-! ### The ApplyChanges orchestrator -/

/-- One remote mutation call dispatched by `ApplyChanges`: either
`AddZoneRRSet` or `DeleteRRSetRecord` with its arguments. -/
inductive Call where
  | add (zone recordName recordType : String) (values : List ResourceRecord) (ttl : Int)
  | del (zone name recordType : String) (contents : List String)
deriving DecidableEq, Repr

/-- The `(zone, name, recordType)` key a call addresses on the remote side.
All SDK endpoints dot-trim zone and name when building the request path, so
the key carries the trimmed forms. -/
def Call.key : Call → String × String × String
  | .add zone recordName recordType _ _ => (trimDots zone, trimDots recordName, recordType)
  | .del zone name recordType _ => (trimDots zone, trimDots name, recordType)

/-- The remote side as a map from `(zone, name, recordType)` to the RRSet's
records; `none` means the RRSet does not exist (GET returns 404). -/
def RemoteState := String × String × String → Option (List ResourceRecord)

/-- Effect of a successful `AddZoneRRSet` (dnssdk) on the addressed RRSet:
when the GET finds records, PUT `values ++ existing`; otherwise (404 or an
empty record list) POST `values`. -/
def addEffect (values : List ResourceRecord) :
    Option (List ResourceRecord) → Option (List ResourceRecord)
  | none => some values
  | some records => if records.isEmpty then some values else some (values ++ records)

/-- Effect of a successful `DeleteRRSetRecord` (dnssdk) on the addressed
RRSet: absent or empty RRSets are left alone; otherwise records with empty
content or with content string among `contents` are dropped, and if nothing
remains the whole RRSet is deleted. -/
def delEffect (contents : List String) :
    Option (List ResourceRecord) → Option (List ResourceRecord)
  | none => none
  | some records =>
    if records.isEmpty then some records
    else
      let newRecords := records.filter fun record =>
        !record.Content.isEmpty && !(contents.contains record.ContentToString)
      if newRecords.isEmpty then none else some newRecords

/-- Effect of one successful call on the records of its key. -/
def Call.effect : Call → Option (List ResourceRecord) → Option (List ResourceRecord)
  | .add _ _ _ values _ => addEffect values
  | .del _ _ _ contents => delEffect contents

/-- Apply one successful call to the remote state. -/
def applyCall (st : RemoteState) (c : Call) : RemoteState :=
  fun k => if k = c.key then c.effect (st k) else st k

/-- Apply a list of successful calls in order. -/
def runCalls (st : RemoteState) (calls : List Call) : RemoteState :=
  calls.foldl applyCall st

/-- The teardown loop of `ApplyChanges` (gcore.go, "prepare zone to add
changes by removing outdated records"): for every `UpdateNew` endpoint with a
resolvable zone, the values of the matching `UpdateOld` endpoint missing from
the new targets are deleted; in dry-run each value is only logged, and a task
is dispatched (on `gr2`) only when the collected value list is non-empty.
Each task is paired with its `errMsg` string used by `errSafeWrap`. -/
def teardownTasks (changes : Changes) (zoneOf : String → String) (dryRun : Bool) :
    List (Call × String) :=
  changes.UpdateNew.filterMap fun d =>
    let zone := zoneOf d.DNSName
    if zone = "" then none
    else
      let diff := unexistingTargets d changes.UpdateOld false
      let recordValues := if dryRun then [] else diff
      let errMsg := if dryRun then [] else diff.map fun content =>
        "update old " ++ d.DNSName ++ " " ++ d.RecordType ++ " " ++ content
      if recordValues.isEmpty then none
      else some (Call.del zone d.DNSName d.RecordType recordValues, joinSep "; " errMsg)

/-- The delete loop of `ApplyChanges` (gcore.go, "remove deleted records"):
for every `Delete` endpoint with a resolvable zone a task is dispatched on
`gr1` — unconditionally, even when the collected value list is empty (there
is no emptiness guard in this loop, unlike the two update loops). -/
def deleteTasks (changes : Changes) (zoneOf : String → String) (dryRun : Bool) :
    List (Call × String) :=
  changes.Delete.filterMap fun d =>
    let zone := zoneOf d.DNSName
    if zone = "" then none
    else
      let recordValues := if dryRun then [] else d.Targets
      let errMsg := if dryRun then [] else d.Targets.map fun content =>
        "delete " ++ d.DNSName ++ " " ++ d.RecordType ++ " " ++ content
      some (Call.del zone d.DNSName d.RecordType recordValues, joinSep "; " errMsg)

/-- The create loop of `ApplyChanges` (gcore.go, "add created records"): for
every `Create` endpoint with a resolvable zone and a record type other than
TXT a task is dispatched on `gr1` — again unconditionally.  `contentOf`
stands for `dnssdk.ContentFromValue` (the content encoding behind
`rr.SetContent`), whose HTTPS branch performs floating-point parsing and is
therefore supplied as a parameter rather than embedded. -/
def createTasks (changes : Changes) (zoneOf : String → String)
    (contentOf : String → String → List String) (dryRun : Bool) : List (Call × String) :=
  changes.Create.filterMap fun c =>
    let zone := zoneOf c.DNSName
    if zone = "" ∨ c.RecordType = "TXT" then none
    else
      let recordValues := if dryRun then [] else c.Targets.map fun content =>
        ResourceRecord.mk (contentOf c.RecordType content) true
      let errMsg := if dryRun then [] else c.Targets.map fun content =>
        "create " ++ c.DNSName ++ " " ++ c.RecordType ++ " " ++ content
      some (Call.add zone c.DNSName c.RecordType recordValues c.RecordTTL, joinSep "; " errMsg)

/-- The update-add loop of `ApplyChanges` (gcore.go, "add changes", running
only after `gr2.Wait()` succeeded): for every `UpdateNew` endpoint with a
resolvable zone, the new targets missing from the matching `UpdateOld`
endpoint are added; a task is dispatched (on `gr1`) only when the collected
value list is non-empty. -/
def updateAddTasks (changes : Changes) (zoneOf : String → String)
    (contentOf : String → String → List String) (dryRun : Bool) : List (Call × String) :=
  changes.UpdateNew.filterMap fun c =>
    let zone := zoneOf c.DNSName
    if zone = "" then none
    else
      let diff := unexistingTargets c changes.UpdateOld true
      let recordValues := if dryRun then [] else diff.map fun content =>
        ResourceRecord.mk (contentOf c.RecordType content) true
      let errMsg := if dryRun then [] else diff.map fun content =>
        "update new " ++ c.DNSName ++ " " ++ c.RecordType ++ " " ++ content
      if recordValues.isEmpty then none
      else some (Call.add zone c.DNSName c.RecordType recordValues c.RecordTTL, joinSep "; " errMsg)

/-- The `appliedChanges` counter struct of `ApplyChanges` (gcore.go). -/
structure AppliedChanges where
  created : Nat
  deleted : Nat
  updated : Nat
deriving DecidableEq, Repr

/-- `appliedChanges.created`: one increment per target of every non-skipped
`Create` endpoint (incremented before the dry-run check, so independent of
dry-run). -/
def createdCount (changes : Changes) (zoneOf : String → String) : Nat :=
  (changes.Create.map fun c =>
    if zoneOf c.DNSName = "" ∨ c.RecordType = "TXT" then 0 else c.Targets.length).sum

/-- `appliedChanges.deleted`: one increment per target of every non-skipped
`Delete` endpoint. -/
def deletedCount (changes : Changes) (zoneOf : String → String) : Nat :=
  (changes.Delete.map fun d =>
    if zoneOf d.DNSName = "" then 0 else d.Targets.length).sum

/-- The `appliedChanges.updated` increments of the teardown loop. -/
def updatedTeardownCount (changes : Changes) (zoneOf : String → String) : Nat :=
  (changes.UpdateNew.map fun d =>
    if zoneOf d.DNSName = "" then 0
    else (unexistingTargets d changes.UpdateOld false).length).sum

/-- The `appliedChanges.updated` increments of the update-add loop. -/
def updatedAddCount (changes : Changes) (zoneOf : String → String) : Nat :=
  (changes.UpdateNew.map fun c =>
    if zoneOf c.DNSName = "" then 0
    else (unexistingTargets c changes.UpdateOld true).length).sum

/-- `errSafeWrap` (gcore.go). -/
def errSafeWrap (msg : String) (err : Option String) : Option String :=
  match err with
  | none => none
  | some e => some (msg ++ ": " ++ e)

/-- The error an errgroup `Wait` reports for a task list, linearised to
dispatch order: the first task whose call fails, wrapped by `errSafeWrap`
with its `errMsg`. -/
def firstFailure (fails : Call → Option String) (tasks : List (Call × String)) : Option String :=
  tasks.findSome? fun t => errSafeWrap t.2 (fails t.1)

/-- What one run of `ApplyChanges` did: the remote calls dispatched (in
dispatch order), the returned error, and the `appliedChanges` counters it
logged. -/
structure ApplyOutcome where
  dispatched : List Call
  err : Option String
  counts : AppliedChanges
deriving DecidableEq, Repr

/-- `DnsProvider.ApplyChanges` (gcore.go), linearised.  The teardown tasks
(`gr2`) and the delete and create tasks (`gr1`) are all dispatched before
`gr2.Wait()`; if a teardown task failed, the wrapped first error is returned
and the update-add loop never runs (its tasks are not dispatched); otherwise
the update-add tasks join `gr1` and `gr1.Wait()`'s first error, if any, is
returned with the same wrap.  `fails` is the oracle giving each dispatched
remote call's failure.  (The `changes.HasChanges()` early return is omitted:
a change set without changes generates no tasks in every loop, so the early
return is observationally void.) -/
def ApplyChanges (changes : Changes) (zoneOf : String → String)
    (contentOf : String → String → List String) (dryRun : Bool)
    (fails : Call → Option String) : ApplyOutcome :=
  let tear := teardownTasks changes zoneOf dryRun
  let dels := deleteTasks changes zoneOf dryRun
  let crts := createTasks changes zoneOf contentOf dryRun
  let preCounts : AppliedChanges :=
    ⟨createdCount changes zoneOf, deletedCount changes zoneOf,
      updatedTeardownCount changes zoneOf⟩
  match firstFailure fails tear with
  | some e =>
    ⟨(tear ++ dels ++ crts).map Prod.fst, some ("gcore: apply changes: " ++ e), preCounts⟩
  | none =>
    let upds := updateAddTasks changes zoneOf contentOf dryRun
    let fullCounts : AppliedChanges :=
      ⟨preCounts.created, preCounts.deleted,
        preCounts.updated + updatedAddCount changes zoneOf⟩
    match firstFailure fails (dels ++ crts ++ upds) with
    | some e =>
      ⟨(tear ++ dels ++ crts ++ upds).map Prod.fst,
        some ("gcore: apply changes: " ++ e), fullCounts⟩
    | none => ⟨(tear ++ dels ++ crts ++ upds).map Prod.fst, none, fullCounts⟩

/-- The remote state after a fully successful, non-dry-run `ApplyChanges`
(every dispatched call succeeded): the dispatched calls applied in dispatch
order.  Under the planner's disjointness guarantee the calls of the two
phases address pairwise distinct keys, so this linearisation agrees with any
interleaving of the concurrent tasks. -/
def applyChangesState (changes : Changes) (zoneOf : String → String)
    (contentOf : String → String → List String) (st : RemoteState) : RemoteState :=
  runCalls st
    ((teardownTasks changes zoneOf false ++ deleteTasks changes zoneOf false ++
      createTasks changes zoneOf contentOf false ++
      updateAddTasks changes zoneOf contentOf false).map Prod.fst)

/-- The `(zone, name, recordType)` key of the remote RRSet an endpoint
addresses once its zone resolved. -/
def endpointKey (zoneOf : String → String) (e : Endpoint) : String × String × String :=
  (trimDots (zoneOf e.DNSName), trimDots e.DNSName, e.RecordType)

/-- The value set the remote side holds at a key: the content strings of the
RRSet's records (empty for an absent RRSet). -/
def remoteValues (st : RemoteState) (k : String × String × String) : List String :=
  ((st k).getD []).map ResourceRecord.ContentToString

/-- The targets of the first `UpdateOld` endpoint matching `e` by record type
and DNS name (the list `unexistingTargets` diffs against). -/
def matchedTargets (e : Endpoint) (olds : List Endpoint) : Option (List String) :=
  (olds.find? fun c => matchesEndpoint e c).map Endpoint.Targets

/-- Keys of the create entries that actually dispatch a call. -/
def createKeys (changes : Changes) (zoneOf : String → String) :
    List (String × String × String) :=
  (changes.Create.filter fun e =>
    !(decide (zoneOf e.DNSName = "" ∨ e.RecordType = "TXT"))).map (endpointKey zoneOf)

/-- Keys of the delete entries that actually dispatch a call. -/
def deleteKeys (changes : Changes) (zoneOf : String → String) :
    List (String × String × String) :=
  (changes.Delete.filter fun e => !(decide (zoneOf e.DNSName = ""))).map (endpointKey zoneOf)

/-- Keys of the update entries whose zone resolves. -/
def updateKeys (changes : Changes) (zoneOf : String → String) :
    List (String × String × String) :=
  (changes.UpdateNew.filter fun e => !(decide (zoneOf e.DNSName = ""))).map (endpointKey zoneOf)

/-- All keys one apply run can address. -/
def touchedKeys (changes : Changes) (zoneOf : String → String) :
    List (String × String × String) :=
  createKeys changes zoneOf ++ deleteKeys changes zoneOf ++ updateKeys changes zoneOf

/-- The composite effect, on one update entry's key, of its optional teardown
deletion (old values missing from the new targets) followed by its optional
addition (new targets missing from the old values), as `ApplyChanges`
dispatches them around the `gr2.Wait()` barrier. -/
def updateKeyResult (newT ts : List String) (orig : Option (List ResourceRecord))
    (mk : String → ResourceRecord) : Option (List ResourceRecord) :=
  let diff0 := ts.filter fun v => !(newT.contains v)
  let diff1 := newT.filter fun v => !(ts.contains v)
  let mid := if diff0.isEmpty then orig else delEffect diff0 orig
  if diff1.isEmpty then mid else addEffect (diff1.map mk) mid

/-- The task the teardown loop dispatches for one `UpdateNew` entry in
non-dry-run mode (the loop body of `teardownTasks` at `dryRun = false`). -/
def teardownGen (changes : Changes) (zoneOf : String → String) (d : Endpoint) :
    Option (Call × String) :=
  if zoneOf d.DNSName = "" then none
  else if (unexistingTargets d changes.UpdateOld false).isEmpty then none
  else some (Call.del (zoneOf d.DNSName) d.DNSName d.RecordType
      (unexistingTargets d changes.UpdateOld false),
    joinSep "; " ((unexistingTargets d changes.UpdateOld false).map fun content =>
      "update old " ++ d.DNSName ++ " " ++ d.RecordType ++ " " ++ content))

/-- The task the delete loop dispatches for one `Delete` entry in non-dry-run
mode. -/
def deleteGen (zoneOf : String → String) (d : Endpoint) : Option (Call × String) :=
  if zoneOf d.DNSName = "" then none
  else some (Call.del (zoneOf d.DNSName) d.DNSName d.RecordType d.Targets,
    joinSep "; " (d.Targets.map fun content =>
      "delete " ++ d.DNSName ++ " " ++ d.RecordType ++ " " ++ content))

/-- The task the create loop dispatches for one `Create` entry in non-dry-run
mode. -/
def createGen (zoneOf : String → String) (contentOf : String → String → List String)
    (c : Endpoint) : Option (Call × String) :=
  if zoneOf c.DNSName = "" ∨ c.RecordType = "TXT" then none
  else some (Call.add (zoneOf c.DNSName) c.DNSName c.RecordType
      (c.Targets.map fun content => ResourceRecord.mk (contentOf c.RecordType content) true)
      c.RecordTTL,
    joinSep "; " (c.Targets.map fun content =>
      "create " ++ c.DNSName ++ " " ++ c.RecordType ++ " " ++ content))

/-- The task the update-add loop dispatches for one `UpdateNew` entry in
non-dry-run mode. -/
def updateAddGen (changes : Changes) (zoneOf : String → String)
    (contentOf : String → String → List String) (c : Endpoint) : Option (Call × String) :=
  if zoneOf c.DNSName = "" then none
  else if ((unexistingTargets c changes.UpdateOld true).map fun content =>
      ResourceRecord.mk (contentOf c.RecordType content) true).isEmpty then none
  else some (Call.add (zoneOf c.DNSName) c.DNSName c.RecordType
      ((unexistingTargets c changes.UpdateOld true).map fun content =>
        ResourceRecord.mk (contentOf c.RecordType content) true)
      c.RecordTTL,
    joinSep "; " ((unexistingTargets c changes.UpdateOld true).map fun content =>
      "update new " ++ c.DNSName ++ " " ++ c.RecordType ++ " " ++ content))

/-! ### Concrete fixtures used to evaluate the model at specific inputs -/

/-- A change set with one create, one delete and one update pair, all in
`example.com`, used to evaluate the reconciliation theorem. -/
def changesW : Changes :=
  ⟨[⟨"c.example.com", "A", ["5.6.7.8"], 300⟩],
   [⟨"d.example.com", "A", ["1.2.3.4"], 0⟩],
   [⟨"u.example.com", "A", ["1.1.1.1"], 0⟩],
   [⟨"u.example.com", "A", ["2.2.2.2"], 0⟩]⟩

/-- A remote state agreeing with `changesW`'s premises: the delete key holds
exactly the delete targets, the update key holds exactly the old targets, the
create key is absent. -/
def stW : RemoteState := fun k =>
  if k = ("example.com", "d.example.com", "A") then some [⟨["1.2.3.4"], true⟩]
  else if k = ("example.com", "u.example.com", "A") then some [⟨["1.1.1.1"], true⟩]
  else none

/-- A resolver over the single zone `example.com`. -/
def zOfEx : String → String := zoneFromDNSName ["example.com"]

/-- `dnssdk.ContentFromValue` for every record type outside
`{mx, caa, srv, https, scvb}`: the default `ToRecordType` branch returns
`RecordTypeAny`, whose `ToContent` is `[]any{string(x)}` — one content item
holding the value verbatim. -/
def contentOfAny : String → String → List String := fun _ v => [v]

/-- The all-success call oracle. -/
def noFail : Call → Option String := fun _ => none

end GCore

namespace GCore

/-! ### General list helpers -/

theorem contains_eq_decide_mem {α : Type _} [BEq α] [LawfulBEq α] (l : List α) (a : α) :
    l.contains a = decide (a ∈ l) := by
  by_cases h : a ∈ l <;> simp [h, List.elem_iff]

theorem map_filter_comm {α β : Type _} (p : β → Bool) (f : α → β) (l : List α) :
    (l.filter fun x => p (f x)).map f = (l.map f).filter p := by
  induction l with
  | nil => rfl
  | cons a l ih => by_cases h : p (f a) <;> simp [h, ih]

theorem find?_append_of_none {α : Type _} (p : α → Bool) (l₁ l₂ : List α)
    (h : l₁.find? p = none) : (l₁ ++ l₂).find? p = l₂.find? p := by
  simp [List.find?_append, h]

/-! ### Zone resolution: suffix lists are strictly shrinking -/

theorem length_joinSep_cons (x y : String) (rest : List String) :
    (joinSep "." (x :: y :: rest)).length = x.length + 1 + (joinSep "." (y :: rest)).length := by
  simp [joinSep, String.length_append]
  rfl

theorem length_le_of_mem_suffixJoins (parts : List String) :
    ∀ s ∈ suffixJoins parts, s.length ≤ (joinSep "." parts).length := by
  induction parts with
  | nil => simp [suffixJoins]
  | cons x rest ih =>
    cases rest with
    | nil => simp [suffixJoins]
    | cons y rest =>
      intro s hs
      rw [suffixJoins, List.mem_cons] at hs
      rcases hs with hs | hs
      · simp [hs]
      · have := ih s hs
        rw [length_joinSep_cons]
        omega

theorem length_lt_head_of_mem_suffixJoins (x y : String) (rest : List String) :
    ∀ s ∈ suffixJoins (y :: rest), s.length < (joinSep "." (x :: y :: rest)).length := by
  intro s hs
  have := length_le_of_mem_suffixJoins (y :: rest) s hs
  rw [length_joinSep_cons]
  omega

theorem suffixJoins_pairwise_length (parts : List String) :
    (suffixJoins parts).Pairwise (fun a b => b.length < a.length) := by
  induction parts with
  | nil => simp [suffixJoins]
  | cons x rest ih =>
    cases rest with
    | nil => simp [suffixJoins]
    | cons y rest2 =>
      rw [suffixJoins]
      refine List.Pairwise.cons ?_ ih
      intro s hs
      exact length_lt_head_of_mem_suffixJoins x y rest2 s hs

theorem find?_first_is_longest (p : String → Bool) :
    ∀ (l : List String), l.Pairwise (fun a b => b.length < a.length) →
      ∀ s, l.find? p = some s → ∀ t ∈ l, p t → t.length ≤ s.length := by
  intro l
  induction l with
  | nil => intro _ s hs; simp [List.find?] at hs
  | cons a l ih =>
    intro hpw s hs t ht hp
    rw [List.pairwise_cons] at hpw
    rw [List.mem_cons] at ht
    by_cases ha : p a
    · rw [List.find?_cons_of_pos _ ha] at hs
      cases hs
      rcases ht with ht | ht
      · subst ht; omega
      · exact le_of_lt (hpw.1 t ht)
    · rw [List.find?_cons_of_neg _ ha] at hs
      rcases ht with ht | ht
      · subst ht; exact absurd hp ha
      · exact ih hpw.2 s hs t ht hp

/-! ### Claim C4: the zone resolver picks the longest known suffix -/

/-- C4.  For every record name and zone-filter set, the resolver built by
`zoneFromDNSNameGetter` returns the longest dot-split suffix of the
dot-trimmed name having at least two labels that occurs in the filter set
(dot-trim normalised), and returns the empty string when no suffix occurs in
the set; a name with fewer than two labels always resolves to no zone. -/
theorem zoneFromDNSName_longest_suffix (filters : List String) (name : String) :
    ((splitDots (trimDots name)).length < 2 → zoneFromDNSName filters name = "") ∧
    ((∀ s ∈ extractAllZones name, s ∉ filters) → zoneFromDNSName filters name = "") ∧
    (∀ s ∈ extractAllZones name, s ∈ filters →
      ∃ t ∈ extractAllZones name, t ∈ filters ∧ zoneFromDNSName filters name = trimDots t ∧
        ∀ u ∈ extractAllZones name, u ∈ filters → u.length ≤ t.length) := by
  refine ⟨?_, ?_, ?_⟩
  · intro hlt
    have hempty : extractAllZones name = [] := by
      unfold extractAllZones
      rcases hsplit : splitDots (trimDots name) with _ | ⟨x, _ | ⟨y, rest⟩⟩
      · rfl
      · rfl
      · rw [hsplit] at hlt
        exact absurd hlt (by simp)
    unfold zoneFromDNSName
    rw [hempty]
    rfl
  · intro hnone
    have : (extractAllZones name).find? (fun z => filters.contains z) = none := by
      rw [List.find?_eq_none]
      intro x hx
      simp only [contains_eq_decide_mem, decide_eq_true_eq]
      exact hnone x hx
    unfold zoneFromDNSName
    rw [this]
  · intro s hs hsf
    have hsome : ∃ t, (extractAllZones name).find? (fun z => filters.contains z) = some t := by
      rcases hfind : (extractAllZones name).find? (fun z => filters.contains z) with _ | t
      · rw [List.find?_eq_none] at hfind
        exact absurd (by simpa [contains_eq_decide_mem] using hsf) (hfind s hs)
      · exact ⟨t, rfl⟩
    obtain ⟨t, ht⟩ := hsome
    have htmem : t ∈ extractAllZones name := List.mem_of_find?_eq_some ht
    have htf : t ∈ filters := by
      have := List.find?_some ht
      simpa [contains_eq_decide_mem] using this
    refine ⟨t, htmem, htf, by unfold zoneFromDNSName; rw [ht], ?_⟩
    intro u hu huf
    refine find?_first_is_longest _ (extractAllZones name) ?_ t ht u hu ?_
    · exact suffixJoins_pairwise_length _
    · simpa [contains_eq_decide_mem] using huf

/-! ### Claim C5: the content differ -/

/-- C5.  `unexistingTargets` scans the candidates in order for the first
entry whose record type and DNS name both equal the existing endpoint's; with
no such entry the result is empty; with first match `c`, the result is
exactly the targets of `existing` absent from `c.Targets` when
`diffFromExisting` is true, and exactly the targets of `c` absent from
`existing.Targets` when it is false. -/
theorem unexistingTargets_diff (existing : Endpoint) (b : Bool) :
    (∀ toCompare : List Endpoint,
      (∀ c ∈ toCompare,
        ¬(c.RecordType = existing.RecordType ∧ c.DNSName = existing.DNSName)) →
      unexistingTargets existing toCompare b = []) ∧
    (∀ (pre post : List Endpoint) (c : Endpoint),
      (∀ x ∈ pre, ¬(x.RecordType = existing.RecordType ∧ x.DNSName = existing.DNSName)) →
      c.RecordType = existing.RecordType → c.DNSName = existing.DNSName →
      unexistingTargets existing (pre ++ c :: post) b =
        if b then existing.Targets.filter (fun t => decide (t ∉ c.Targets))
        else c.Targets.filter (fun t => decide (t ∉ existing.Targets))) := by
  constructor
  · intro toCompare hno
    have : toCompare.find? (fun c => matchesEndpoint existing c) = none := by
      rw [List.find?_eq_none]
      intro x hx
      have hx2 := hno x hx
      simp only [matchesEndpoint, Bool.and_eq_true, beq_iff_eq]
      exact hx2
    unfold unexistingTargets
    rw [this]
  · intro pre post c hpre hct hcn
    have hprenone : pre.find? (fun c => matchesEndpoint existing c) = none := by
      rw [List.find?_eq_none]
      intro x hx
      have hx2 := hpre x hx
      simp only [matchesEndpoint, Bool.and_eq_true, beq_iff_eq]
      exact hx2
    have hfind : (pre ++ c :: post).find? (fun x => matchesEndpoint existing x) = some c := by
      rw [find?_append_of_none _ _ _ hprenone]
      have : matchesEndpoint existing c = true := by
        simp [matchesEndpoint, hct, hcn]
      simp [List.find?_cons_of_pos, this]
    unfold unexistingTargets
    rw [hfind]
    cases b with
    | true =>
      simp only [if_true]
      refine List.filter_congr ?_
      intro x _
      simp [contains_eq_decide_mem]
    | false =>
      simp only [if_false]
      refine List.filter_congr ?_
      intro x _
      simp [contains_eq_decide_mem]

/-! ### Claim C1: per-key execution lemmas -/

/-- Evaluating a run of calls at one key only involves the calls addressing
that key, folded over the key's records. -/
theorem runCalls_eq_foldl_filter (k : String × String × String) (calls : List Call)
    (st : RemoteState) :
    runCalls st calls k =
      (calls.filter fun c => decide (c.key = k)).foldl (fun acc c => c.effect acc) (st k) := by
  induction calls generalizing st with
  | nil => rfl
  | cons c cs ih =>
    show runCalls (applyCall st c) cs k = _
    rw [ih]
    by_cases hc : c.key = k
    · rw [List.filter_cons_of_pos (by simp [hc]), List.foldl_cons]
      have : applyCall st c k = c.effect (st k) := by
        unfold applyCall
        rw [if_pos hc.symm]
      rw [this]
    · rw [List.filter_cons_of_neg (by simp [hc])]
      have : applyCall st c k = st k := by
        unfold applyCall
        rw [if_neg (fun h => hc h.symm)]
      rw [this]

/-- The calls a task group contributes at a key other than any the group
addresses: none. -/
theorem group_calls_other_key {α : Type _} (l : List α) (f : α → Option (Call × String))
    (g : α → String × String × String) (p : α → Bool)
    (hk : ∀ x ∈ l, ∀ t, f x = some t → t.1.key = g x ∧ p x = true)
    (k : String × String × String) (hne : ∀ x ∈ l, p x = true → g x ≠ k) :
    ((l.filterMap f).map Prod.fst).filter (fun c => decide (c.key = k)) = [] := by
  rw [List.filter_eq_nil_iff]
  intro c hc
  rw [List.mem_map] at hc
  obtain ⟨t, ht, rfl⟩ := hc
  rw [List.mem_filterMap] at ht
  obtain ⟨x, hx, hfx⟩ := ht
  obtain ⟨hkey, hp⟩ := hk x hx t hfx
  simp [hkey, hne x hx hp]

/-- The calls a task group contributes at the key of one of its entries: at
most the entry's own call, provided the group's dispatching keys are
pairwise distinct. -/
theorem group_calls_at_key {α : Type _} (l : List α) (f : α → Option (Call × String))
    (g : α → String × String × String) (p : α → Bool)
    (hk : ∀ x ∈ l, ∀ t, f x = some t → t.1.key = g x ∧ p x = true)
    (hn : ((l.filter p).map g).Nodup)
    (e : α) (he : e ∈ l) (hpe : p e = true) :
    ((l.filterMap f).map Prod.fst).filter (fun c => decide (c.key = g e)) =
      ((f e).map Prod.fst).toList := by
  induction l with
  | nil => cases he
  | cons a l ih =>
    have hnl : ((l.filter p).map g).Nodup := by
      by_cases hpa : p a
      · rw [List.filter_cons_of_pos hpa] at hn
        exact (List.nodup_cons.mp hn).2
      · rw [List.filter_cons_of_neg (by simp [hpa])] at hn
        exact hn
    have hkl : ∀ x ∈ l, ∀ t, f x = some t → t.1.key = g x ∧ p x = true := by
      intro x hx t ht
      exact hk x (List.mem_cons_of_mem a hx) t ht
    rw [List.mem_cons] at he
    rcases he with rfl | he
    · -- e is the head: no later entry may share its key
      rw [List.filter_cons_of_pos hpe] at hn
      rw [List.map_cons] at hn
      have hnot := (List.nodup_cons.mp hn).1
      have htail : ((l.filterMap f).map Prod.fst).filter
          (fun c => decide (c.key = g e)) = [] := by
        apply group_calls_other_key l f g p hkl
        intro x hx hpx hgx
        exact hnot (hgx ▸ List.mem_map_of_mem g (List.mem_filter.mpr ⟨hx, hpx⟩))
      rcases hfa : f e with _ | t
      · rw [List.filterMap_cons_none hfa, htail]
        rfl
      · rw [List.filterMap_cons_some hfa, List.map_cons]
        obtain ⟨hkey, -⟩ := hk e (List.mem_cons_self e l) t hfa
        rw [List.filter_cons_of_pos (by simp [hkey]), htail]
        rfl
    · -- e is in the tail
      rcases hfa : f a with _ | t
      · rw [List.filterMap_cons_none hfa]
        exact ih hkl hnl he
      · rw [List.filterMap_cons_some hfa, List.map_cons]
        obtain ⟨hkey, hpa⟩ := hk a (List.mem_cons_self a l) t hfa
        rw [List.filter_cons_of_pos hpa] at hn
        rw [List.map_cons] at hn
        have hnot := (List.nodup_cons.mp hn).1
        have hgne : g a ≠ g e := by
          intro hgeq
          exact hnot (hgeq ▸ List.mem_map_of_mem g (List.mem_filter.mpr ⟨he, hpe⟩))
        rw [List.filter_cons_of_neg (by simp [hkey, hgne])]
        exact ih hkl hnl he

/-- A successful value deletion whose contents cover every remote record
leaves nothing at the key. -/
theorem delEffect_covering (targets : List String) (orig : Option (List ResourceRecord))
    (hcov : ∀ r ∈ orig.getD [], r.ContentToString ∈ targets) :
    (delEffect targets orig).getD [] = [] := by
  rcases orig with _ | rs
  · rfl
  · rcases hrs : rs with _ | ⟨r0, rest⟩
    · rfl
    · rw [← hrs]
      have hrsne : rs.isEmpty = false := by
        rw [hrs]; rfl
      have hfilter : (rs.filter fun record =>
          !record.Content.isEmpty && !(targets.contains record.ContentToString)) = [] := by
        rw [List.filter_eq_nil_iff]
        intro r hr
        have := hcov r (by simpa using hr)
        simp [contains_eq_decide_mem, this]
      simp only [delEffect, hrsne, Bool.false_eq_true, if_false, hfilter,
        List.isEmpty_nil, if_true, Option.getD_none]

/-- The record values left at an update entry's key after its teardown and
addition ran: the added diff followed by the surviving old records — those
whose value is among the new targets. -/
theorem updateKeyResult_vals (newT ts : List String) (orig : Option (List ResourceRecord))
    (mk : String → ResourceRecord)
    (hmk : ∀ v, (mk v).ContentToString = v)
    (hcont : ∀ r ∈ orig.getD [], ¬r.Content = [])
    (hsub1 : ∀ v ∈ (orig.getD []).map ResourceRecord.ContentToString, v ∈ ts)
    (hsub2 : ∀ v ∈ ts, v ∈ (orig.getD []).map ResourceRecord.ContentToString) :
    ((updateKeyResult newT ts orig mk).getD []).map ResourceRecord.ContentToString =
      (newT.filter fun v => !(ts.contains v)) ++
      (((orig.getD []).map ResourceRecord.ContentToString).filter fun v => newT.contains v) := by
  have hcm : ResourceRecord.ContentToString ∘ mk = id := funext hmk
  have hmapmk : ∀ l : List String,
      (l.map mk).map ResourceRecord.ContentToString = l := by
    intro l
    rw [List.map_map, hcm, List.map_id]
  unfold updateKeyResult
  by_cases h0 : (ts.filter fun v => !(newT.contains v)).isEmpty
  · -- no stale values: every old value is still wanted
    have hts : ∀ v ∈ ts, v ∈ newT := by
      intro v hv
      by_contra hvn
      have hmem : v ∈ ts.filter fun v => !(newT.contains v) :=
        List.mem_filter.mpr ⟨hv, by simp [contains_eq_decide_mem, hvn]⟩
      rw [List.isEmpty_iff] at h0
      rw [h0] at hmem
      cases hmem
    have hfilterall : (((orig.getD []).map ResourceRecord.ContentToString).filter
        fun v => newT.contains v) = (orig.getD []).map ResourceRecord.ContentToString := by
      rw [List.filter_eq_self]
      intro v hv
      simp [contains_eq_decide_mem, hts v (hsub1 v hv)]
    rw [hfilterall]
    simp only [h0, if_true]
    by_cases h1 : (newT.filter fun v => !(ts.contains v)).isEmpty
    · simp only [h1, if_true]
      rw [List.isEmpty_iff.mp h1, List.nil_append]
    · simp only [h1, Bool.false_eq_true, if_false]
      rcases orig with _ | rs0
      · simp only [Option.getD_none, List.map_nil, List.append_nil]
        show ((addEffect _ none).getD []).map _ = _
        simp only [addEffect, Option.getD_some]
        exact hmapmk _
      · by_cases hrs0 : rs0.isEmpty
        · rw [List.isEmpty_iff.mp hrs0]
          show ((addEffect _ (some [])).getD []).map _ = _
          simp only [addEffect, List.isEmpty_nil, if_true, Option.getD_some]
          simp [hmapmk]
        · show ((addEffect _ (some rs0)).getD []).map _ = _
          simp only [addEffect, hrs0, Bool.false_eq_true, if_false, Option.getD_some]
          rw [List.map_append, hmapmk]
  · -- some stale value exists, so the old record list is non-empty
    have hne0 : (ts.filter fun v => !(newT.contains v)) ≠ [] := by
      intro h
      rw [h] at h0
      exact h0 rfl
    obtain ⟨w, hw⟩ := List.exists_mem_of_ne_nil _ hne0
    have hwts : w ∈ ts := (List.mem_filter.mp hw).1
    have hwv := hsub2 w hwts
    rcases orig with _ | rs0
    · simp at hwv
    · have hrs0ne : rs0 ≠ [] := by
        rintro rfl
        simp at hwv
      have hrs0e : rs0.isEmpty = false := by
        simp [List.isEmpty_iff, hrs0ne]
      have hnewrec : (rs0.filter fun record => !record.Content.isEmpty &&
          !((ts.filter fun v => !(newT.contains v)).contains record.ContentToString)) =
          rs0.filter (fun record => newT.contains record.ContentToString) := by
        apply List.filter_congr
        intro r hr
        have hc := hcont r (by simpa using hr)
        have hin : r.ContentToString ∈ ts :=
          hsub1 r.ContentToString (List.mem_map_of_mem ResourceRecord.ContentToString
            (by simpa using hr))
        by_cases hmem : r.ContentToString ∈ newT
        · simp [contains_eq_decide_mem, hmem, List.isEmpty_iff, hc, List.mem_filter]
        · simp [contains_eq_decide_mem, hmem, List.isEmpty_iff, hc, List.mem_filter, hin]
      have hmid : delEffect (ts.filter fun v => !(newT.contains v)) (some rs0) =
          if (rs0.filter fun record => newT.contains record.ContentToString).isEmpty then none
          else some (rs0.filter fun record => newT.contains record.ContentToString) := by
        simp only [delEffect, hrs0e, Bool.false_eq_true, if_false, hnewrec]
      have hFV : (rs0.filter fun record => newT.contains record.ContentToString).map
          ResourceRecord.ContentToString =
          ((rs0.map ResourceRecord.ContentToString).filter fun v => newT.contains v) :=
        map_filter_comm _ _ _
      simp only [h0, Bool.false_eq_true, if_false, hmid, Option.getD_some]
      by_cases hF : (rs0.filter fun record => newT.contains record.ContentToString).isEmpty
      · have hFnil := List.isEmpty_iff.mp hF
        simp only [hF, if_true]
        rw [hFnil] at hFV
        have hvfnil : ((rs0.map ResourceRecord.ContentToString).filter
            fun v => newT.contains v) = [] := by
          rw [← hFV]
          rfl
        rw [hvfnil, List.append_nil]
        by_cases h1 : (newT.filter fun v => !(ts.contains v)).isEmpty
        · simp only [h1, if_true]
          rw [List.isEmpty_iff.mp h1]
          rfl
        · simp only [h1, Bool.false_eq_true, if_false]
          show ((addEffect _ none).getD []).map _ = _
          simp only [addEffect, Option.getD_some]
          exact hmapmk _
      · simp only [hF, Bool.false_eq_true, if_false]
        by_cases h1 : (newT.filter fun v => !(ts.contains v)).isEmpty
        · simp only [h1, if_true]
          rw [List.isEmpty_iff.mp h1, List.nil_append, Option.getD_some, hFV]
        · simp only [h1, Bool.false_eq_true, if_false]
          show ((addEffect _ (some _)).getD []).map _ = _
          simp only [addEffect, hF, Bool.false_eq_true, if_false, Option.getD_some]
          rw [List.map_append, hmapmk, hFV]

/-- Set-level consequence for an update entry's key: after the apply its
remote value set equals the new target set, with no duplicates. -/
theorem updateKeyResult_spec (newT ts : List String) (orig : Option (List ResourceRecord))
    (mk : String → ResourceRecord)
    (hmk : ∀ v, (mk v).ContentToString = v)
    (hnodupNew : newT.Nodup)
    (hnodupVals : ((orig.getD []).map ResourceRecord.ContentToString).Nodup)
    (hcont : ∀ r ∈ orig.getD [], ¬r.Content = [])
    (hsub1 : ∀ v ∈ (orig.getD []).map ResourceRecord.ContentToString, v ∈ ts)
    (hsub2 : ∀ v ∈ ts, v ∈ (orig.getD []).map ResourceRecord.ContentToString) :
    (((updateKeyResult newT ts orig mk).getD []).map ResourceRecord.ContentToString).Nodup ∧
    ∀ v, v ∈ ((updateKeyResult newT ts orig mk).getD []).map ResourceRecord.ContentToString ↔
      v ∈ newT := by
  rw [updateKeyResult_vals newT ts orig mk hmk hcont hsub1 hsub2]
  constructor
  · refine List.Nodup.append (hnodupNew.filter _) (hnodupVals.filter _) ?_
    intro v hv1 hv2
    have h1 := List.mem_filter.mp hv1
    have h2 := List.mem_filter.mp hv2
    have hts : v ∈ ts := hsub1 v h2.1
    have hnot : ¬v ∈ ts := by simpa [contains_eq_decide_mem] using h1.2
    exact hnot hts
  · intro v
    simp only [List.mem_append, List.mem_filter]
    constructor
    · rintro (⟨hv, -⟩ | ⟨hv, hc⟩)
      · exact hv
      · simpa [contains_eq_decide_mem] using hc
    · intro hv
      by_cases hts : v ∈ ts
      · exact Or.inr ⟨hsub2 v hts, by simp [contains_eq_decide_mem, hv]⟩
      · exact Or.inl ⟨hv, by simp [contains_eq_decide_mem, hts]⟩

/-- A successful `AddZoneRRSet` on an absent or empty RRSet creates exactly
the given values. -/
theorem addEffect_fresh (values : List ResourceRecord) (orig : Option (List ResourceRecord))
    (h : orig = none ∨ orig = some []) :
    addEffect values orig = some values := by
  rcases h with rfl | rfl
  · rfl
  · rfl

/-- Rendering the records the create and update-add loops build from targets
recovers the targets, provided the content encoding round-trips. -/
theorem map_cts_map_mk (ty : String) (contentOf : String → String → List String)
    (hser : ∀ t v, joinSep " " (contentOf t v) = v) (l : List String) :
    (l.map fun content => ResourceRecord.mk (contentOf ty content) true).map
      ResourceRecord.ContentToString = l := by
  rw [List.map_map]
  have hfun : (ResourceRecord.ContentToString ∘
      fun content => ResourceRecord.mk (contentOf ty content) true) = id := by
    funext v
    exact hser ty v
  rw [hfun, List.map_id]

/-- The non-dry-run teardown task list is the per-entry generator mapped over
`UpdateNew`. -/
theorem teardownTasks_eq_gen (changes : Changes) (zoneOf : String → String) :
    teardownTasks changes zoneOf false =
      changes.UpdateNew.filterMap (teardownGen changes zoneOf) := rfl

/-- The non-dry-run delete task list is the per-entry generator mapped over
`Delete`. -/
theorem deleteTasks_eq_gen (changes : Changes) (zoneOf : String → String) :
    deleteTasks changes zoneOf false = changes.Delete.filterMap (deleteGen zoneOf) := rfl

/-- The non-dry-run create task list is the per-entry generator mapped over
`Create`. -/
theorem createTasks_eq_gen (changes : Changes) (zoneOf : String → String)
    (contentOf : String → String → List String) :
    createTasks changes zoneOf contentOf false =
      changes.Create.filterMap (createGen zoneOf contentOf) := rfl

/-- The non-dry-run update-add task list is the per-entry generator mapped
over `UpdateNew`. -/
theorem updateAddTasks_eq_gen (changes : Changes) (zoneOf : String → String)
    (contentOf : String → String → List String) :
    updateAddTasks changes zoneOf contentOf false =
      changes.UpdateNew.filterMap (updateAddGen changes zoneOf contentOf) := rfl

/-- Every teardown task addresses its entry's key, and only resolved entries
dispatch. -/
theorem teardownGen_key (changes : Changes) (zoneOf : String → String) :
    ∀ x, ∀ t, teardownGen changes zoneOf x = some t →
      t.1.key = endpointKey zoneOf x ∧ (!(decide (zoneOf x.DNSName = ""))) = true := by
  intro x t ht
  unfold teardownGen at ht
  by_cases hz : zoneOf x.DNSName = ""
  · rw [if_pos hz] at ht; cases ht
  · rw [if_neg hz] at ht
    by_cases hdiff : (unexistingTargets x changes.UpdateOld false).isEmpty
    · rw [if_pos hdiff] at ht; cases ht
    · rw [if_neg hdiff] at ht
      cases ht
      exact ⟨rfl, by simp [hz]⟩

/-- Every delete task addresses its entry's key, and only resolved entries
dispatch. -/
theorem deleteGen_key (zoneOf : String → String) :
    ∀ x, ∀ t, deleteGen zoneOf x = some t →
      t.1.key = endpointKey zoneOf x ∧ (!(decide (zoneOf x.DNSName = ""))) = true := by
  intro x t ht
  unfold deleteGen at ht
  by_cases hz : zoneOf x.DNSName = ""
  · rw [if_pos hz] at ht; cases ht
  · rw [if_neg hz] at ht
    cases ht
    exact ⟨rfl, by simp [hz]⟩

/-- Every create task addresses its entry's key, and only resolved non-TXT
entries dispatch. -/
theorem createGen_key (zoneOf : String → String)
    (contentOf : String → String → List String) :
    ∀ x, ∀ t, createGen zoneOf contentOf x = some t →
      t.1.key = endpointKey zoneOf x ∧
        (!(decide (zoneOf x.DNSName = "" ∨ x.RecordType = "TXT"))) = true := by
  intro x t ht
  unfold createGen at ht
  by_cases hc : zoneOf x.DNSName = "" ∨ x.RecordType = "TXT"
  · rw [if_pos hc] at ht; cases ht
  · rw [if_neg hc] at ht
    cases ht
    exact ⟨rfl, by simp [not_or.mp hc]⟩

/-- Every update-add task addresses its entry's key, and only resolved
entries dispatch. -/
theorem updateAddGen_key (changes : Changes) (zoneOf : String → String)
    (contentOf : String → String → List String) :
    ∀ x, ∀ t, updateAddGen changes zoneOf contentOf x = some t →
      t.1.key = endpointKey zoneOf x ∧ (!(decide (zoneOf x.DNSName = ""))) = true := by
  intro x t ht
  unfold updateAddGen at ht
  by_cases hz : zoneOf x.DNSName = ""
  · rw [if_pos hz] at ht; cases ht
  · rw [if_neg hz] at ht
    by_cases hdiff : ((unexistingTargets x changes.UpdateOld true).map fun content =>
        ResourceRecord.mk (contentOf x.RecordType content) true).isEmpty
    · rw [if_pos hdiff] at ht; cases ht
    · rw [if_neg hdiff] at ht
      cases ht
      exact ⟨rfl, by simp [hz]⟩

/-- C1 (amended).  After a fully successful non-dry-run `ApplyChanges` over a
change set whose dispatching entries address pairwise distinct
`(zone, dnsName, recordType)` keys, and whose premises hold on the remote
side — create keys absent (or empty), delete keys holding only values among
the delete targets, every resolved update entry matching an `UpdateOld` entry
whose target set (duplicate-free, with non-empty record contents) is exactly
the remote value set — and whose content encoding round-trips (as it does for
plain record types), the remote value set at each create and update key
equals the endpoint's target set with no duplicates, and each delete key is
left empty.  (TXT creates are skipped by the code and are excluded; without
the premises on the initial remote state the original claim fails, see the
counterexample.) -/
theorem ApplyChanges_reconciles_remote (changes : Changes) (zoneOf : String → String)
    (contentOf : String → String → List String) (st : RemoteState)
    (hser : ∀ t v, joinSep " " (contentOf t v) = v)
    (hkeys : (touchedKeys changes zoneOf).Nodup)
    (htxt : ∀ e ∈ changes.Create, ¬e.RecordType = "TXT")
    (hcr : ∀ e ∈ changes.Create, ¬zoneOf e.DNSName = "" →
      st (endpointKey zoneOf e) = none ∨ st (endpointKey zoneOf e) = some [])
    (hcrnd : ∀ e ∈ changes.Create, e.Targets.Nodup)
    (hdel : ∀ e ∈ changes.Delete, ¬zoneOf e.DNSName = "" →
      ∀ r ∈ (st (endpointKey zoneOf e)).getD [], r.ContentToString ∈ e.Targets)
    (hupd : ∀ e ∈ changes.UpdateNew, ¬zoneOf e.DNSName = "" →
      e.Targets.Nodup ∧
      (∀ r ∈ (st (endpointKey zoneOf e)).getD [], ¬r.Content = []) ∧
      (((st (endpointKey zoneOf e)).getD []).map ResourceRecord.ContentToString).Nodup ∧
      ∃ ts, matchedTargets e changes.UpdateOld = some ts ∧
        (∀ v ∈ ((st (endpointKey zoneOf e)).getD []).map ResourceRecord.ContentToString,
          v ∈ ts) ∧
        (∀ v ∈ ts,
          v ∈ ((st (endpointKey zoneOf e)).getD []).map ResourceRecord.ContentToString)) :
    (∀ e ∈ changes.Create, ¬zoneOf e.DNSName = "" →
      (remoteValues (applyChangesState changes zoneOf contentOf st)
        (endpointKey zoneOf e)).Nodup ∧
      ∀ v, v ∈ remoteValues (applyChangesState changes zoneOf contentOf st)
        (endpointKey zoneOf e) ↔ v ∈ e.Targets) ∧
    (∀ e ∈ changes.Delete, ¬zoneOf e.DNSName = "" →
      remoteValues (applyChangesState changes zoneOf contentOf st)
        (endpointKey zoneOf e) = []) ∧
    (∀ e ∈ changes.UpdateNew, ¬zoneOf e.DNSName = "" →
      (remoteValues (applyChangesState changes zoneOf contentOf st)
        (endpointKey zoneOf e)).Nodup ∧
      ∀ v, v ∈ remoteValues (applyChangesState changes zoneOf contentOf st)
        (endpointKey zoneOf e) ↔ v ∈ e.Targets) := by
  have hkeys2 : ((createKeys changes zoneOf ++ deleteKeys changes zoneOf) ++
      updateKeys changes zoneOf).Nodup := hkeys
  rw [List.nodup_append] at hkeys2
  obtain ⟨hcd2, hnu, hcdu⟩ := hkeys2
  rw [List.nodup_append] at hcd2
  obtain ⟨hnc, hnd, hcd⟩ := hcd2
  have hmemC : ∀ x ∈ changes.Create,
      (!(decide (zoneOf x.DNSName = "" ∨ x.RecordType = "TXT"))) = true →
      endpointKey zoneOf x ∈ createKeys changes zoneOf := by
    intro x hx hp
    exact List.mem_map_of_mem _ (List.mem_filter.mpr ⟨hx, hp⟩)
  have hmemD : ∀ x ∈ changes.Delete, (!(decide (zoneOf x.DNSName = ""))) = true →
      endpointKey zoneOf x ∈ deleteKeys changes zoneOf := by
    intro x hx hp
    exact List.mem_map_of_mem _ (List.mem_filter.mpr ⟨hx, hp⟩)
  have hmemU : ∀ x ∈ changes.UpdateNew, (!(decide (zoneOf x.DNSName = ""))) = true →
      endpointKey zoneOf x ∈ updateKeys changes zoneOf := by
    intro x hx hp
    exact List.mem_map_of_mem _ (List.mem_filter.mpr ⟨hx, hp⟩)
  have hsplit : ∀ k, applyChangesState changes zoneOf contentOf st k =
      (((teardownTasks changes zoneOf false).map Prod.fst).filter
          (fun c => decide (c.key = k)) ++
        ((deleteTasks changes zoneOf false).map Prod.fst).filter
          (fun c => decide (c.key = k)) ++
        ((createTasks changes zoneOf contentOf false).map Prod.fst).filter
          (fun c => decide (c.key = k)) ++
        ((updateAddTasks changes zoneOf contentOf false).map Prod.fst).filter
          (fun c => decide (c.key = k))).foldl (fun acc c => c.effect acc) (st k) := by
    intro k
    unfold applyChangesState
    rw [runCalls_eq_foldl_filter]
    rw [List.map_append, List.map_append, List.map_append,
      List.filter_append, List.filter_append, List.filter_append]
  refine ⟨?_, ?_, ?_⟩
  · -- create entries
    intro e he hz
    have hpe : (!(decide (zoneOf e.DNSName = "" ∨ e.RecordType = "TXT"))) = true := by
      simp [hz, htxt e he]
    have hkmem := hmemC e he hpe
    have hfT : ((teardownTasks changes zoneOf false).map Prod.fst).filter
        (fun c => decide (c.key = endpointKey zoneOf e)) = [] := by
      rw [teardownTasks_eq_gen]
      refine group_calls_other_key _ _ (endpointKey zoneOf)
        (fun x => !(decide (zoneOf x.DNSName = "")))
        (fun x _ t ht => teardownGen_key changes zoneOf x t ht) _ ?_
      intro x hx hpx hgx
      exact hcdu (List.mem_append_left _ hkmem)
        (by rw [← hgx]; exact hmemU x hx hpx)
    have hfD : ((deleteTasks changes zoneOf false).map Prod.fst).filter
        (fun c => decide (c.key = endpointKey zoneOf e)) = [] := by
      rw [deleteTasks_eq_gen]
      refine group_calls_other_key _ _ (endpointKey zoneOf)
        (fun x => !(decide (zoneOf x.DNSName = "")))
        (fun x _ t ht => deleteGen_key zoneOf x t ht) _ ?_
      intro x hx hpx hgx
      exact hcd hkmem (by rw [← hgx]; exact hmemD x hx hpx)
    have hfU : ((updateAddTasks changes zoneOf contentOf false).map Prod.fst).filter
        (fun c => decide (c.key = endpointKey zoneOf e)) = [] := by
      rw [updateAddTasks_eq_gen]
      refine group_calls_other_key _ _ (endpointKey zoneOf)
        (fun x => !(decide (zoneOf x.DNSName = "")))
        (fun x _ t ht => updateAddGen_key changes zoneOf contentOf x t ht) _ ?_
      intro x hx hpx hgx
      exact hcdu (List.mem_append_left _ hkmem)
        (by rw [← hgx]; exact hmemU x hx hpx)
    have hfC : ((createTasks changes zoneOf contentOf false).map Prod.fst).filter
        (fun c => decide (c.key = endpointKey zoneOf e)) =
        [Call.add (zoneOf e.DNSName) e.DNSName e.RecordType
          (e.Targets.map fun content => ResourceRecord.mk (contentOf e.RecordType content) true)
          e.RecordTTL] := by
      rw [createTasks_eq_gen]
      have h := group_calls_at_key changes.Create (createGen zoneOf contentOf)
        (endpointKey zoneOf)
        (fun x => !(decide (zoneOf x.DNSName = "" ∨ x.RecordType = "TXT")))
        (fun x _ t ht => createGen_key zoneOf contentOf x t ht) hnc e he hpe
      rw [h]
      unfold createGen
      rw [if_neg (not_or.mpr ⟨hz, htxt e he⟩)]
      rfl
    have hstate := hsplit (endpointKey zoneOf e)
    rw [hfT, hfD, hfC, hfU] at hstate
    simp only [List.nil_append, List.append_nil] at hstate
    rw [List.foldl_cons, List.foldl_nil] at hstate
    have heff : (Call.add (zoneOf e.DNSName) e.DNSName e.RecordType
        (e.Targets.map fun content => ResourceRecord.mk (contentOf e.RecordType content) true)
        e.RecordTTL).effect (st (endpointKey zoneOf e)) =
        some (e.Targets.map fun content =>
          ResourceRecord.mk (contentOf e.RecordType content) true) := by
      show addEffect _ _ = _
      exact addEffect_fresh _ _ (hcr e he hz)
    rw [heff] at hstate
    have hval : remoteValues (applyChangesState changes zoneOf contentOf st)
        (endpointKey zoneOf e) = e.Targets := by
      unfold remoteValues
      rw [hstate, Option.getD_some]
      exact map_cts_map_mk e.RecordType contentOf hser e.Targets
    rw [hval]
    exact ⟨hcrnd e he, fun v => Iff.rfl⟩
  · -- delete entries
    intro e he hz
    have hpe : (!(decide (zoneOf e.DNSName = ""))) = true := by simp [hz]
    have hkmem := hmemD e he hpe
    have hfT : ((teardownTasks changes zoneOf false).map Prod.fst).filter
        (fun c => decide (c.key = endpointKey zoneOf e)) = [] := by
      rw [teardownTasks_eq_gen]
      refine group_calls_other_key _ _ (endpointKey zoneOf)
        (fun x => !(decide (zoneOf x.DNSName = "")))
        (fun x _ t ht => teardownGen_key changes zoneOf x t ht) _ ?_
      intro x hx hpx hgx
      exact hcdu (List.mem_append_right _ hkmem)
        (by rw [← hgx]; exact hmemU x hx hpx)
    have hfC : ((createTasks changes zoneOf contentOf false).map Prod.fst).filter
        (fun c => decide (c.key = endpointKey zoneOf e)) = [] := by
      rw [createTasks_eq_gen]
      refine group_calls_other_key _ _ (endpointKey zoneOf)
        (fun x => !(decide (zoneOf x.DNSName = "" ∨ x.RecordType = "TXT")))
        (fun x _ t ht => createGen_key zoneOf contentOf x t ht) _ ?_
      intro x hx hpx hgx
      exact hcd (hmemC x hx hpx) (by rw [← hgx] at hkmem; exact hkmem)
    have hfU : ((updateAddTasks changes zoneOf contentOf false).map Prod.fst).filter
        (fun c => decide (c.key = endpointKey zoneOf e)) = [] := by
      rw [updateAddTasks_eq_gen]
      refine group_calls_other_key _ _ (endpointKey zoneOf)
        (fun x => !(decide (zoneOf x.DNSName = "")))
        (fun x _ t ht => updateAddGen_key changes zoneOf contentOf x t ht) _ ?_
      intro x hx hpx hgx
      exact hcdu (List.mem_append_right _ hkmem)
        (by rw [← hgx]; exact hmemU x hx hpx)
    have hfD : ((deleteTasks changes zoneOf false).map Prod.fst).filter
        (fun c => decide (c.key = endpointKey zoneOf e)) =
        [Call.del (zoneOf e.DNSName) e.DNSName e.RecordType e.Targets] := by
      rw [deleteTasks_eq_gen]
      have h := group_calls_at_key changes.Delete (deleteGen zoneOf)
        (endpointKey zoneOf) (fun x => !(decide (zoneOf x.DNSName = "")))
        (fun x _ t ht => deleteGen_key zoneOf x t ht) hnd e he hpe
      rw [h]
      unfold deleteGen
      rw [if_neg hz]
      rfl
    have hstate := hsplit (endpointKey zoneOf e)
    rw [hfT, hfD, hfC, hfU] at hstate
    simp only [List.nil_append, List.append_nil] at hstate
    rw [List.foldl_cons, List.foldl_nil] at hstate
    have hcov := delEffect_covering e.Targets (st (endpointKey zoneOf e)) (hdel e he hz)
    unfold remoteValues
    rw [hstate]
    show ((delEffect e.Targets (st (endpointKey zoneOf e))).getD []).map _ = []
    rw [hcov]
    rfl
  · -- update entries
    intro e he hz
    obtain ⟨hndNew, hcont, hndVals, ts, hts, hsub1, hsub2⟩ := hupd e he hz
    have hpe : (!(decide (zoneOf e.DNSName = ""))) = true := by simp [hz]
    have hkmem := hmemU e he hpe
    obtain ⟨c0, hfind, hc0⟩ :
        ∃ c0, changes.UpdateOld.find? (fun c => matchesEndpoint e c) = some c0 ∧
          c0.Targets = ts := by
      unfold matchedTargets at hts
      exact Option.map_eq_some'.mp hts
    have hdiff0 : unexistingTargets e changes.UpdateOld false =
        ts.filter fun v => !(e.Targets.contains v) := by
      unfold unexistingTargets
      rw [hfind]
      show c0.Targets.filter _ = _
      rw [hc0]
    have hdiff1 : unexistingTargets e changes.UpdateOld true =
        e.Targets.filter fun v => !(ts.contains v) := by
      unfold unexistingTargets
      rw [hfind]
      show e.Targets.filter (fun v => !(c0.Targets.contains v)) = _
      rw [hc0]
    have hfD : ((deleteTasks changes zoneOf false).map Prod.fst).filter
        (fun c => decide (c.key = endpointKey zoneOf e)) = [] := by
      rw [deleteTasks_eq_gen]
      refine group_calls_other_key _ _ (endpointKey zoneOf)
        (fun x => !(decide (zoneOf x.DNSName = "")))
        (fun x _ t ht => deleteGen_key zoneOf x t ht) _ ?_
      intro x hx hpx hgx
      exact hcdu (List.mem_append_right _ (hmemD x hx hpx))
        (by rw [← hgx] at hkmem; exact hkmem)
    have hfC : ((createTasks changes zoneOf contentOf false).map Prod.fst).filter
        (fun c => decide (c.key = endpointKey zoneOf e)) = [] := by
      rw [createTasks_eq_gen]
      refine group_calls_other_key _ _ (endpointKey zoneOf)
        (fun x => !(decide (zoneOf x.DNSName = "" ∨ x.RecordType = "TXT")))
        (fun x _ t ht => createGen_key zoneOf contentOf x t ht) _ ?_
      intro x hx hpx hgx
      exact hcdu (List.mem_append_left _ (hmemC x hx hpx))
        (by rw [← hgx] at hkmem; exact hkmem)
    have hfT : ((teardownTasks changes zoneOf false).map Prod.fst).filter
        (fun c => decide (c.key = endpointKey zoneOf e)) =
        ((teardownGen changes zoneOf e).map Prod.fst).toList := by
      rw [teardownTasks_eq_gen]
      exact group_calls_at_key changes.UpdateNew (teardownGen changes zoneOf)
        (endpointKey zoneOf) (fun x => !(decide (zoneOf x.DNSName = "")))
        (fun x _ t ht => teardownGen_key changes zoneOf x t ht) hnu e he hpe
    have hfU : ((updateAddTasks changes zoneOf contentOf false).map Prod.fst).filter
        (fun c => decide (c.key = endpointKey zoneOf e)) =
        ((updateAddGen changes zoneOf contentOf e).map Prod.fst).toList := by
      rw [updateAddTasks_eq_gen]
      exact group_calls_at_key changes.UpdateNew (updateAddGen changes zoneOf contentOf)
        (endpointKey zoneOf) (fun x => !(decide (zoneOf x.DNSName = "")))
        (fun x _ t ht => updateAddGen_key changes zoneOf contentOf x t ht) hnu e he hpe
    have hmape : ∀ l : List String,
        (l.map fun content => ResourceRecord.mk (contentOf e.RecordType content) true).isEmpty
          = l.isEmpty := by
      intro l
      cases l <;> rfl
    have hmk : ∀ v, (ResourceRecord.mk (contentOf e.RecordType v) true).ContentToString = v :=
      fun v => hser e.RecordType v
    have hstate := hsplit (endpointKey zoneOf e)
    rw [hfT, hfD, hfC, hfU] at hstate
    have hfinal : applyChangesState changes zoneOf contentOf st (endpointKey zoneOf e) =
        updateKeyResult e.Targets ts (st (endpointKey zoneOf e))
          (fun content => ResourceRecord.mk (contentOf e.RecordType content) true) := by
      rw [hstate]
      unfold updateKeyResult
      by_cases h0 : (ts.filter fun v => !(e.Targets.contains v)).isEmpty <;>
        by_cases h1 : (e.Targets.filter fun v => !(ts.contains v)).isEmpty
      · have htl : ((teardownGen changes zoneOf e).map Prod.fst).toList = [] := by
          unfold teardownGen
          rw [if_neg hz, hdiff0, if_pos h0]
          rfl
        have hul : ((updateAddGen changes zoneOf contentOf e).map Prod.fst).toList = [] := by
          unfold updateAddGen
          rw [if_neg hz, hdiff1, if_pos (by rw [hmape]; exact h1)]
          rfl
        rw [htl, hul, if_pos h1, if_pos h0]
        rfl
      · have htl : ((teardownGen changes zoneOf e).map Prod.fst).toList = [] := by
          unfold teardownGen
          rw [if_neg hz, hdiff0, if_pos h0]
          rfl
        have hul : ((updateAddGen changes zoneOf contentOf e).map Prod.fst).toList =
            [Call.add (zoneOf e.DNSName) e.DNSName e.RecordType
              ((e.Targets.filter fun v => !(ts.contains v)).map fun content =>
                ResourceRecord.mk (contentOf e.RecordType content) true)
              e.RecordTTL] := by
          unfold updateAddGen
          rw [if_neg hz, hdiff1, if_neg (by rw [hmape]; exact h1)]
          rfl
        rw [htl, hul, if_neg h1, if_pos h0]
        rfl
      · have htl : ((teardownGen changes zoneOf e).map Prod.fst).toList =
            [Call.del (zoneOf e.DNSName) e.DNSName e.RecordType
              (ts.filter fun v => !(e.Targets.contains v))] := by
          unfold teardownGen
          rw [if_neg hz, hdiff0, if_neg h0]
          rfl
        have hul : ((updateAddGen changes zoneOf contentOf e).map Prod.fst).toList = [] := by
          unfold updateAddGen
          rw [if_neg hz, hdiff1, if_pos (by rw [hmape]; exact h1)]
          rfl
        rw [htl, hul, if_pos h1, if_neg h0]
        rfl
      · have htl : ((teardownGen changes zoneOf e).map Prod.fst).toList =
            [Call.del (zoneOf e.DNSName) e.DNSName e.RecordType
              (ts.filter fun v => !(e.Targets.contains v))] := by
          unfold teardownGen
          rw [if_neg hz, hdiff0, if_neg h0]
          rfl
        have hul : ((updateAddGen changes zoneOf contentOf e).map Prod.fst).toList =
            [Call.add (zoneOf e.DNSName) e.DNSName e.RecordType
              ((e.Targets.filter fun v => !(ts.contains v)).map fun content =>
                ResourceRecord.mk (contentOf e.RecordType content) true)
              e.RecordTTL] := by
          unfold updateAddGen
          rw [if_neg hz, hdiff1, if_neg (by rw [hmape]; exact h1)]
          rfl
        rw [htl, hul, if_neg h1, if_neg h0]
        rfl
    have hspec := updateKeyResult_spec e.Targets ts (st (endpointKey zoneOf e))
      (fun content => ResourceRecord.mk (contentOf e.RecordType content) true)
      hmk hndNew hndVals hcont hsub1 hsub2
    unfold remoteValues
    rw [hfinal]
    exact hspec

/-- C1 counterexample.  Two successful non-dry-run applies of change sets
with pairwise disjoint keys after which the remote value set does not equal
the desired target set: a TXT create is skipped outright (the remote side
stays empty although the endpoint wants `v`), and a create onto a key that
already holds a foreign value extends the RRSet instead of replacing it (the
stale `9.9.9.9` survives next to the created `1.1.1.1`). -/
theorem create_leaves_remote_unreconciled :
    (ApplyChanges ⟨[⟨"a.example.com", "TXT", ["v"], 0⟩], [], [], []⟩
      zOfEx contentOfAny false noFail).err = none ∧
    remoteValues (applyChangesState ⟨[⟨"a.example.com", "TXT", ["v"], 0⟩], [], [], []⟩
      zOfEx contentOfAny (fun _ => none)) ("example.com", "a.example.com", "TXT") = [] ∧
    (ApplyChanges ⟨[⟨"a.example.com", "A", ["1.1.1.1"], 0⟩], [], [], []⟩
      zOfEx contentOfAny false noFail).err = none ∧
    remoteValues (applyChangesState ⟨[⟨"a.example.com", "A", ["1.1.1.1"], 0⟩], [], [], []⟩
      zOfEx contentOfAny
      (fun k => if k = ("example.com", "a.example.com", "A")
        then some [⟨["9.9.9.9"], true⟩] else none))
      ("example.com", "a.example.com", "A") = ["1.1.1.1", "9.9.9.9"] :=
  ⟨rfl, rfl, rfl, rfl⟩

/-- C1 witness: the reconciliation theorem evaluated on a concrete change set
(one create, one delete, one update) over a remote state satisfying its
premises. -/
theorem ApplyChanges_reconciles_remote_witness :
    (∀ e ∈ changesW.Create, ¬zOfEx e.DNSName = "" →
      (remoteValues (applyChangesState changesW zOfEx contentOfAny stW)
        (endpointKey zOfEx e)).Nodup ∧
      ∀ v, v ∈ remoteValues (applyChangesState changesW zOfEx contentOfAny stW)
        (endpointKey zOfEx e) ↔ v ∈ e.Targets) ∧
    (∀ e ∈ changesW.Delete, ¬zOfEx e.DNSName = "" →
      remoteValues (applyChangesState changesW zOfEx contentOfAny stW)
        (endpointKey zOfEx e) = []) ∧
    (∀ e ∈ changesW.UpdateNew, ¬zOfEx e.DNSName = "" →
      (remoteValues (applyChangesState changesW zOfEx contentOfAny stW)
        (endpointKey zOfEx e)).Nodup ∧
      ∀ v, v ∈ remoteValues (applyChangesState changesW zOfEx contentOfAny stW)
        (endpointKey zOfEx e) ↔ v ∈ e.Targets) := by
  refine ApplyChanges_reconciles_remote changesW zOfEx contentOfAny stW
    (fun t v => rfl) (by decide) (by decide) (by decide) (by decide) (by decide) ?_
  intro e he hz
  rw [show changesW.UpdateNew = [⟨"u.example.com", "A", ["2.2.2.2"], 0⟩] from rfl,
    List.mem_singleton] at he
  subst he
  refine ⟨by decide, by decide, by decide, ["1.1.1.1"], rfl, by decide, by decide⟩

/-! ### Claim C8: bulk zone fetch is all-or-nothing -/

/-- C8.  In `AllZonesWithRecords`, if the detail fetch of any listed zone
fails, the whole call returns an error naming a failing zone and no zone
list; all zones populated with their detail are returned exactly when every
per-zone fetch succeeds (a listing failure is likewise wrapped and
propagated). -/
theorem AllZonesWithRecords_all_or_nothing (zs : List Zone)
    (fetchZone : String → Except String Zone) :
    ((∀ z ∈ zs, ∃ zd, fetchZone z.Name = .ok zd) →
      AllZonesWithRecords (.ok zs) fetchZone =
        .ok (zs.map fun z =>
          match fetchZone z.Name with
          | .ok zoneDetail => zoneDetail
          | .error _ => z)) ∧
    ((∃ z ∈ zs, ∃ e, fetchZone z.Name = .error e) →
      ∃ zname e, zname ∈ zs.map Zone.Name ∧ fetchZone zname = .error e ∧
        AllZonesWithRecords (.ok zs) fetchZone =
          .error ("zone info: " ++ zname ++ ": " ++ e)) ∧
    (∀ e, AllZonesWithRecords (.error e) fetchZone = .error ("all zones: " ++ e)) := by
  refine ⟨?_, ?_, fun e => rfl⟩
  · intro hok
    have hnone : zoneInfoFirstFailure zs fetchZone = none := by
      rw [zoneInfoFirstFailure, List.findSome?_eq_none_iff]
      intro z hz
      obtain ⟨zd, hzd⟩ := hok z hz
      simp [hzd]
    simp only [AllZonesWithRecords]
    rw [hnone]
  · intro hbad
    rcases hfail : zoneInfoFirstFailure zs fetchZone with _ | p
    · exfalso
      obtain ⟨z, hz, e, he⟩ := hbad
      rw [zoneInfoFirstFailure, List.findSome?_eq_none_iff] at hfail
      have := hfail z hz
      rw [he] at this
      simp at this
    · obtain ⟨z, hz, hzp⟩ := List.exists_of_findSome?_eq_some hfail
      refine ⟨p.1, p.2, ?_, ?_, ?_⟩
      · rcases he : fetchZone z.Name with e | zd
        · rw [he] at hzp
          simp only [Option.some.injEq] at hzp
          subst hzp
          exact List.mem_map_of_mem Zone.Name hz
        · rw [he] at hzp; simp at hzp
      · rcases he : fetchZone z.Name with e | zd
        · rw [he] at hzp
          simp only [Option.some.injEq] at hzp
          subst hzp
          exact he
        · rw [he] at hzp; simp at hzp
      · simp only [AllZonesWithRecords]
        rw [hfail]

/-! ### Claim C9: value deletion is not-found tolerant -/

/-- C9.  `DeleteRRSetRecord` returns success when the RRSet GET reports 404;
when removing the given contents empties the RRSet it issues a whole-RRSet
DELETE, succeeding both on an ok response and on a 404 response to that
DELETE (and failing only on its other failures); at the state level, a
deletion that filters out every record removes the RRSet entirely. -/
theorem DeleteRRSetRecord_spec (zone name recordType : String) (contents : List String) :
    (∀ (e : APIError) delResp updResp, e.StatusCode = 404 →
      DeleteRRSetRecord zone name recordType (.error e) delResp updResp contents = none) ∧
    (∀ (rrSet : RRSet) updResp, rrSet.Records ≠ [] →
      (rrSet.Records.filter fun record =>
        !record.Content.isEmpty && !(contents.contains record.ContentToString)) = [] →
      DeleteRRSetRecord zone name recordType (.ok rrSet) (.ok ()) updResp contents = none ∧
      (∀ e : APIError, e.StatusCode = 404 →
        DeleteRRSetRecord zone name recordType (.ok rrSet) (.error e) updResp contents = none) ∧
      (∀ e : APIError, e.StatusCode ≠ 404 →
        DeleteRRSetRecord zone name recordType (.ok rrSet) (.error e) updResp contents =
          some ("delete rrset: delete record request: " ++ e.Error))) ∧
    (∀ records : List ResourceRecord, records ≠ [] →
      (records.filter fun record =>
        !record.Content.isEmpty && !(contents.contains record.ContentToString)) = [] →
      delEffect contents (some records) = none) := by
  refine ⟨?_, ?_, ?_⟩
  · intro e delResp updResp h404
    simp [DeleteRRSetRecord, h404]
  · intro rrSet updResp hne hfilter
    have hre : rrSet.Records.isEmpty = false := by
      simpa [List.isEmpty_iff] using hne
    have hall : ∀ x ∈ rrSet.Records, ¬x.Content = [] → x.ContentToString ∈ contents := by
      intro x hx hc
      by_contra hmem
      apply List.filter_eq_nil_iff.mp hfilter x hx
      simp [List.isEmpty_iff, hc, contains_eq_decide_mem, hmem]
    refine ⟨?_, ?_, ?_⟩
    · simp only [DeleteRRSetRecord, hre, Bool.false_eq_true, if_false, hfilter,
        List.isEmpty_nil, if_true, DeleteRRSet]
    · intro e h404
      simp only [DeleteRRSetRecord, hre, Bool.false_eq_true, if_false, hfilter,
        List.isEmpty_nil, if_true, DeleteRRSet, h404, if_pos]
    · intro e h404
      simp only [DeleteRRSetRecord, hre, Bool.false_eq_true, if_false, hfilter,
        List.isEmpty_nil, if_true, DeleteRRSet]
      rw [if_neg h404]
      show some ("delete rrset: " ++ ("delete record request: " ++ e.Error)) = _
      rw [← String.append_assoc]
      rfl
  · intro records hne hfilter
    have hre : records.isEmpty = false := by
      simpa [List.isEmpty_iff] using hne
    have hall : ∀ x ∈ records, ¬x.Content = [] → x.ContentToString ∈ contents := by
      intro x hx hc
      by_contra hmem
      apply List.filter_eq_nil_iff.mp hfilter x hx
      simp [List.isEmpty_iff, hc, contains_eq_decide_mem, hmem]
    simp only [delEffect, hre, Bool.false_eq_true, if_false, hfilter,
      List.isEmpty_nil, if_true]

/-! ### Claim C10: a failed zone listing silently disables the pass -/

/-- Helper: when the resolver maps every name to no zone, no loop of
`ApplyChanges` dispatches a task. -/
theorem tasks_nil_of_zone_unresolved (changes : Changes)
    (contentOf : String → String → List String) (dryRun : Bool)
    (zoneOf : String → String) (hz : ∀ n, zoneOf n = "") :
    teardownTasks changes zoneOf dryRun = [] ∧
    deleteTasks changes zoneOf dryRun = [] ∧
    createTasks changes zoneOf contentOf dryRun = [] ∧
    updateAddTasks changes zoneOf contentOf dryRun = [] := by
  refine ⟨?_, ?_, ?_, ?_⟩
  · simp only [teardownTasks]
    rw [List.filterMap_eq_nil_iff]
    intro a _
    simp [hz a.DNSName]
  · simp only [deleteTasks]
    rw [List.filterMap_eq_nil_iff]
    intro a _
    simp [hz a.DNSName]
  · simp only [createTasks]
    rw [List.filterMap_eq_nil_iff]
    intro a _
    simp [hz a.DNSName]
  · simp only [updateAddTasks]
    rw [List.filterMap_eq_nil_iff]
    intro a _
    simp [hz a.DNSName]

/-- C10.  When the initial zone listing fails, `GetDomainFilter` swallows the
error and returns the empty domain filter; the resolver built from an empty
filter list maps every name to no zone; and an `ApplyChanges` pass with that
resolver dispatches no remote call and returns success for every change
set. -/
theorem getDomainFilter_error_skips_everything :
    (∀ e : String, GetDomainFilterFilters (.error e) = []) ∧
    (∀ name : String, zoneFromDNSName [] name = "") ∧
    (∀ (changes : Changes) (contentOf : String → String → List String) (dryRun : Bool)
        (fails : Call → Option String),
      (ApplyChanges changes (zoneFromDNSName []) contentOf dryRun fails).dispatched = [] ∧
      (ApplyChanges changes (zoneFromDNSName []) contentOf dryRun fails).err = none) := by
  have hz : ∀ name, zoneFromDNSName [] name = "" := by
    intro name
    have : (extractAllZones name).find? (fun possibleZone => List.contains [] possibleZone)
        = none := by
      rw [List.find?_eq_none]
      intro x _
      simp
    unfold zoneFromDNSName
    rw [this]
  refine ⟨fun e => rfl, hz, ?_⟩
  intro changes contentOf dryRun fails
  obtain ⟨h1, h2, h3, h4⟩ := tasks_nil_of_zone_unresolved changes contentOf dryRun _ hz
  unfold ApplyChanges
  rw [h1, h2, h3, h4]
  exact ⟨rfl, rfl⟩


/-! ### Claim C2: what a teardown failure does and does not prevent -/

/-- Helper: `errSafeWrap` returns nil exactly on a nil error. -/
theorem errSafeWrap_eq_none (msg : String) (err : Option String) :
    errSafeWrap msg err = none ↔ err = none := by
  cases err <;> simp [errSafeWrap]

/-- Helper: an errgroup wait reports no error exactly when no task failed. -/
theorem firstFailure_eq_none_iff (fails : Call → Option String)
    (tasks : List (Call × String)) :
    firstFailure fails tasks = none ↔ ∀ t ∈ tasks, fails t.1 = none := by
  rw [firstFailure, List.findSome?_eq_none_iff]
  constructor
  · intro h t ht
    exact (errSafeWrap_eq_none t.2 (fails t.1)).mp (h t ht)
  · intro h t ht
    exact (errSafeWrap_eq_none t.2 (fails t.1)).mpr (h t ht)

/-- C2 counterexample.  A change set with one update pair (whose teardown
deletion fails) and one delete entry: `ApplyChanges` returns the wrapped
teardown error, yet the Delete-group mutation for `d.example.com` is
dispatched all the same — the delete and create loops run and hand their
tasks to `gr1` before `gr2.Wait()` is ever reached, so a teardown failure
does not prevent Create or Delete mutations from being dispatched. -/
theorem teardownFailure_delete_still_dispatched :
    (ApplyChanges
        ⟨[], [⟨"d.example.com", "A", ["3.3.3.3"], 0⟩],
         [⟨"u.example.com", "A", ["1.1.1.1"], 0⟩],
         [⟨"u.example.com", "A", ["2.2.2.2"], 0⟩]⟩
        zOfEx contentOfAny false
        (fun c =>
          if c = Call.del "example.com" "u.example.com" "A" ["1.1.1.1"]
          then some "boom" else none)).err =
      some "gcore: apply changes: update old u.example.com A 1.1.1.1: boom" ∧
    Call.del "example.com" "d.example.com" "A" ["3.3.3.3"] ∈
      (ApplyChanges
        ⟨[], [⟨"d.example.com", "A", ["3.3.3.3"], 0⟩],
         [⟨"u.example.com", "A", ["1.1.1.1"], 0⟩],
         [⟨"u.example.com", "A", ["2.2.2.2"], 0⟩]⟩
        zOfEx contentOfAny false
        (fun c =>
          if c = Call.del "example.com" "u.example.com" "A" ["1.1.1.1"]
          then some "boom" else none)).dispatched := by
  refine ⟨rfl, ?_⟩
  rw [show (ApplyChanges
        ⟨[], [⟨"d.example.com", "A", ["3.3.3.3"], 0⟩],
         [⟨"u.example.com", "A", ["1.1.1.1"], 0⟩],
         [⟨"u.example.com", "A", ["2.2.2.2"], 0⟩]⟩
        zOfEx contentOfAny false
        (fun c =>
          if c = Call.del "example.com" "u.example.com" "A" ["1.1.1.1"]
          then some "boom" else none)).dispatched =
      [Call.del "example.com" "u.example.com" "A" ["1.1.1.1"],
       Call.del "example.com" "d.example.com" "A" ["3.3.3.3"]] from rfl]
  simp

/-- C2 (amended).  If any teardown task fails, `ApplyChanges` returns the
first aggregated teardown error wrapped with the stage-identifying prefix
`gcore: apply changes:` and never dispatches any UpdateAdd mutation; the
Delete and Create mutations, however, are dispatched concurrently with the
teardown phase before the barrier and are not prevented. -/
theorem ApplyChanges_teardown_failure_gates_updateAdd (changes : Changes)
    (zoneOf : String → String) (contentOf : String → String → List String)
    (fails : Call → Option String) (msg : String)
    (h : firstFailure fails (teardownTasks changes zoneOf false) = some msg) :
    (ApplyChanges changes zoneOf contentOf false fails).err =
      some ("gcore: apply changes: " ++ msg) ∧
    (ApplyChanges changes zoneOf contentOf false fails).dispatched =
      (teardownTasks changes zoneOf false ++ deleteTasks changes zoneOf false ++
        createTasks changes zoneOf contentOf false).map Prod.fst := by
  simp only [ApplyChanges, h]
  simp

/-- C2 witness: the amended theorem evaluated at the counterexample's change
set. -/
theorem ApplyChanges_teardown_failure_gates_updateAdd_witness :
    (ApplyChanges
        ⟨[], [⟨"d.example.com", "A", ["3.3.3.3"], 0⟩],
         [⟨"u.example.com", "A", ["1.1.1.1"], 0⟩],
         [⟨"u.example.com", "A", ["2.2.2.2"], 0⟩]⟩
        zOfEx contentOfAny false
        (fun c =>
          if c = Call.del "example.com" "u.example.com" "A" ["1.1.1.1"]
          then some "boom" else none)).err =
      some ("gcore: apply changes: " ++ "update old u.example.com A 1.1.1.1: boom") ∧
    (ApplyChanges
        ⟨[], [⟨"d.example.com", "A", ["3.3.3.3"], 0⟩],
         [⟨"u.example.com", "A", ["1.1.1.1"], 0⟩],
         [⟨"u.example.com", "A", ["2.2.2.2"], 0⟩]⟩
        zOfEx contentOfAny false
        (fun c =>
          if c = Call.del "example.com" "u.example.com" "A" ["1.1.1.1"]
          then some "boom" else none)).dispatched =
      [Call.del "example.com" "u.example.com" "A" ["1.1.1.1"],
       Call.del "example.com" "d.example.com" "A" ["3.3.3.3"]] := by
  have h := ApplyChanges_teardown_failure_gates_updateAdd
    ⟨[], [⟨"d.example.com", "A", ["3.3.3.3"], 0⟩],
     [⟨"u.example.com", "A", ["1.1.1.1"], 0⟩],
     [⟨"u.example.com", "A", ["2.2.2.2"], 0⟩]⟩
    zOfEx contentOfAny
    (fun c =>
      if c = Call.del "example.com" "u.example.com" "A" ["1.1.1.1"]
      then some "boom" else none)
    "update old u.example.com A 1.1.1.1: boom" rfl
  exact ⟨h.1, h.2.trans rfl⟩

/-! ### Claim C6: update additions wait for the whole teardown phase -/

/-- C6.  In non-dry-run mode the dispatch trace of `ApplyChanges` always
starts with the complete teardown task list; the UpdateAdd calls are
appended — after `gr2.Wait()` — only when every teardown task succeeded, and
are not dispatched at all when one failed.  Hence for every `UpdateNew`
record, the teardown deletion of its stale values completes before its
addition call can be dispatched. -/
theorem ApplyChanges_updateAdd_after_teardown (changes : Changes)
    (zoneOf : String → String) (contentOf : String → String → List String)
    (fails : Call → Option String) :
    ((∀ t ∈ teardownTasks changes zoneOf false, fails t.1 = none) →
      (ApplyChanges changes zoneOf contentOf false fails).dispatched =
        (teardownTasks changes zoneOf false).map Prod.fst ++
        ((deleteTasks changes zoneOf false ++
          createTasks changes zoneOf contentOf false).map Prod.fst ++
         (updateAddTasks changes zoneOf contentOf false).map Prod.fst)) ∧
    ((∃ t ∈ teardownTasks changes zoneOf false, fails t.1 ≠ none) →
      (ApplyChanges changes zoneOf contentOf false fails).dispatched =
        (teardownTasks changes zoneOf false).map Prod.fst ++
        (deleteTasks changes zoneOf false ++
          createTasks changes zoneOf contentOf false).map Prod.fst) := by
  constructor
  · intro hok
    have hnone : firstFailure fails (teardownTasks changes zoneOf false) = none :=
      (firstFailure_eq_none_iff fails _).mpr hok
    rcases h1 : firstFailure fails
        (deleteTasks changes zoneOf false ++ createTasks changes zoneOf contentOf false ++
          updateAddTasks changes zoneOf contentOf false) with _ | e <;>
      · simp only [ApplyChanges, hnone, h1]
        simp [List.map_append, List.append_assoc]
  · intro hbad
    rcases hfail : firstFailure fails (teardownTasks changes zoneOf false) with _ | e
    · exfalso
      obtain ⟨t, ht, hne⟩ := hbad
      exact hne ((firstFailure_eq_none_iff fails _).mp hfail t ht)
    · simp only [ApplyChanges, hfail]
      simp [List.map_append, List.append_assoc]

/-! ### Claim C7: a diff-free change set dispatches nothing -/

/-- C7.  For a change set with empty create and delete groups in which every
`UpdateNew` endpoint has the same target set as the `UpdateOld` entry it
matches — the situation after re-applying an already-applied change set —
`ApplyChanges` dispatches no remote mutation call and returns success. -/
theorem ApplyChanges_no_diff_noop (changes : Changes) (zoneOf : String → String)
    (contentOf : String → String → List String) (dryRun : Bool)
    (fails : Call → Option String)
    (hc : changes.Create = []) (hd : changes.Delete = [])
    (hu : ∀ e ∈ changes.UpdateNew, ∀ ts ∈ matchedTargets e changes.UpdateOld,
      (∀ v ∈ ts, v ∈ e.Targets) ∧ (∀ v ∈ e.Targets, v ∈ ts)) :
    (ApplyChanges changes zoneOf contentOf dryRun fails).dispatched = [] ∧
    (ApplyChanges changes zoneOf contentOf dryRun fails).err = none := by
  have hdiff : ∀ b : Bool, ∀ e ∈ changes.UpdateNew,
      unexistingTargets e changes.UpdateOld b = [] := by
    intro b e he
    unfold unexistingTargets
    rcases hf : changes.UpdateOld.find? (fun c => matchesEndpoint e c) with _ | c
    · rfl
    · have hts : c.Targets ∈ matchedTargets e changes.UpdateOld := by
        simp [matchedTargets, hf]
      obtain ⟨h1, h2⟩ := hu e he c.Targets hts
      cases b
      · simp only [if_false, Bool.false_eq_true]
        rw [List.filter_eq_nil_iff]
        intro v hv
        simp [contains_eq_decide_mem, h1 v hv]
      · simp only [if_true]
        rw [List.filter_eq_nil_iff]
        intro v hv
        simp [contains_eq_decide_mem, h2 v hv]
  have h1 : teardownTasks changes zoneOf dryRun = [] := by
    simp only [teardownTasks]
    rw [List.filterMap_eq_nil_iff]
    intro e he
    by_cases hz : zoneOf e.DNSName = "" <;>
      cases dryRun <;> simp [hz, hdiff false e he]
  have h2 : deleteTasks changes zoneOf dryRun = [] := by
    simp only [deleteTasks, hd, List.filterMap_nil]
  have h3 : createTasks changes zoneOf contentOf dryRun = [] := by
    simp only [createTasks, hc, List.filterMap_nil]
  have h4 : updateAddTasks changes zoneOf contentOf dryRun = [] := by
    simp only [updateAddTasks]
    rw [List.filterMap_eq_nil_iff]
    intro e he
    by_cases hz : zoneOf e.DNSName = "" <;>
      cases dryRun <;> simp [hz, hdiff true e he]
  simp [ApplyChanges, h1, h2, h3, h4, firstFailure]

/-- C7 witness: re-applying an update whose old and new target sets agree (up
to order) dispatches nothing. -/
theorem ApplyChanges_no_diff_noop_witness :
    (ApplyChanges
        ⟨[], [], [⟨"u.example.com", "A", ["1.1.1.1", "2.2.2.2"], 0⟩],
         [⟨"u.example.com", "A", ["2.2.2.2", "1.1.1.1"], 0⟩]⟩
        zOfEx contentOfAny false noFail).dispatched = [] ∧
    (ApplyChanges
        ⟨[], [], [⟨"u.example.com", "A", ["1.1.1.1", "2.2.2.2"], 0⟩],
         [⟨"u.example.com", "A", ["2.2.2.2", "1.1.1.1"], 0⟩]⟩
        zOfEx contentOfAny false noFail).err = none := by
  refine ApplyChanges_no_diff_noop _ zOfEx contentOfAny false noFail rfl rfl ?_
  intro e he ts hts
  rw [List.mem_singleton] at he
  subst he
  rw [show matchedTargets ⟨"u.example.com", "A", ["2.2.2.2", "1.1.1.1"], 0⟩
      [⟨"u.example.com", "A", ["1.1.1.1", "2.2.2.2"], 0⟩] =
      some ["1.1.1.1", "2.2.2.2"] from rfl] at hts
  rw [Option.mem_some_iff] at hts
  subst hts
  refine ⟨?_, ?_⟩ <;> decide


/-! ### Claim C3: dry-run still dispatches remote calls (a defect) -/

/-- C3, evaluated at the failing input.  A dry-run `ApplyChanges` over a
change set with one delete entry and one create entry (both in a known zone)
still dispatches a `DeleteRRSetRecord` call and an `AddZoneRRSet` call — with
empty value lists, since the create and delete loops lack the emptiness guard
of the two update loops — while the logged counters do agree with the live
run's. -/
theorem dryRun_dispatches_remote_calls :
    (ApplyChanges
        ⟨[⟨"c.example.com", "A", ["5.6.7.8"], 300⟩],
         [⟨"d.example.com", "A", ["1.2.3.4"], 0⟩], [], []⟩
        zOfEx contentOfAny true noFail).dispatched =
      [Call.del "example.com" "d.example.com" "A" [],
       Call.add "example.com" "c.example.com" "A" [] 300] ∧
    (ApplyChanges
        ⟨[⟨"c.example.com", "A", ["5.6.7.8"], 300⟩],
         [⟨"d.example.com", "A", ["1.2.3.4"], 0⟩], [], []⟩
        zOfEx contentOfAny true noFail).counts =
      (ApplyChanges
        ⟨[⟨"c.example.com", "A", ["5.6.7.8"], 300⟩],
         [⟨"d.example.com", "A", ["1.2.3.4"], 0⟩], [], []⟩
        zOfEx contentOfAny false noFail).counts := ⟨rfl, rfl⟩


end GCore
